import Mathlib

/-!
Verification of the knowledge-base search engine (Next.js route `api/knowledge`).

This file is a shallow embedding of the search route's code: the tokenizer,
the markdown document parser, the index builder (inverted index, term
frequencies, IDF, TF-IDF vectors, embeddings), the 18-factor relevance
scorer, the index lifecycle cache (`loadKnowledgeBaseDocuments`), and the
`POST` request handler.

Modelling conventions:
* JavaScript floating-point numbers are modelled as an arbitrary linear
  ordered field `K` (instantiated with `ℚ` or `ℝ` in concrete statements);
  the transcendental library functions `Math.log` and `Math.sqrt` are
  passed in explicitly as a `RealOps K` record, so every theorem quantifies
  over the interpretation of these functions (in particular it holds for
  the real `log`/`sqrt`).  Field division is total in Lean (`x / 0 = 0`);
  the one place the source can divide by zero (`averageDocumentLength` of
  an empty document list, NaN in JS) is never consumed by the modelled
  claims.
* JavaScript `Map`/`Set`/object semantics: `Map`s with `get(k) || 0`
  defaults are modelled as total functions with default `0`; `Set`s as
  insertion-ordered duplicate-free lists (`jsSetAdd`); objects used as
  dictionaries keyed by document id as insertion-ordered association lists
  (`upsert` keeps the original key position, as JS property assignment
  does).  Strings are ASCII in all concrete inputs, so `toLowerCase`,
  `.length` and `trim` agree with their Lean counterparts.
* The `matchDetails` diagnostic string array (display-only, never read)
  and the wall-clock `searchTime` field are omitted from the model.
* `console.log`/`console.warn` calls, the 5s `Promise.race` timeout and
  the outer `try/catch` of `searchDocuments` (reachable only via a thrown
  exception, which the modelled pure computation cannot produce) are not
  modelled.
-/

namespace KB

/-- The two transcendental `Math` functions used by the route
(`Math.log` in IDF computation, `Math.sqrt` in cosine similarity),
abstracted so the model is executable and theorems hold for every
interpretation, including the true `Real.log`/`Real.sqrt`. -/
structure RealOps (K : Type) where
  log : K → K
  sqrt : K → K

/-- JS `\w` character class: `[A-Za-z0-9_]`. -/
def isWordChar (c : Char) : Bool :=
  (('a' ≤ c && c ≤ 'z') || ('A' ≤ c && c ≤ 'Z') || ('0' ≤ c && c ≤ '9') || c = '_')

/-- JS `Set.prototype.add`: append at the end if not already present. -/
def jsSetAdd {α : Type} [DecidableEq α] (l : List α) (a : α) : List α :=
  if a ∈ l then l else l ++ [a]

/-- Deduplicate keeping the first occurrence of each element, in order:
the contents of a JS `Set` built by adding the elements of a list. -/
def dedupFirst {α : Type} [DecidableEq α] (l : List α) : List α :=
  l.foldl jsSetAdd []

/-- Assignment `obj[k] = v` on a JS object used as a dictionary: replaces
the value in place if the key exists, else appends the new key. -/
def upsert {α : Type} : List (String × α) → String → α → List (String × α)
  | [], k, v => [(k, v)]
  | (k0, v0) :: t, k, v =>
    if k0 = k then (k0, v) :: t else (k0, v0) :: upsert t k v

/-- Substring occurrence on character lists: `needle` occurs somewhere in
`hay` (JS `String.prototype.includes`). -/
def charsInfix (needle : List Char) : List Char → Bool
  | [] => needle.isEmpty
  | c :: t => needle.isPrefixOf (c :: t) || charsInfix needle t

/-- JS `s.includes(sub)`. -/
def strIncludes (s sub : String) : Bool :=
  charsInfix sub.toList s.toList

/-- JS `s.toLowerCase()` (ASCII): lowercase every character. -/
def strToLower (s : String) : String :=
  String.mk (s.toList.map Char.toLower)

/-- JS `s.trim()`: strip leading and trailing whitespace. -/
def strTrim (s : String) : String :=
  String.mk (((s.toList.dropWhile Char.isWhitespace).reverse.dropWhile
    Char.isWhitespace).reverse)

/-- JS `s.endsWith(suffix)`. -/
def strEndsWith (s suffix : String) : Bool :=
  suffix.toList.reverse.isPrefixOf s.toList.reverse

/-- Lexicographic comparison by code point (the JS default array sort
order on strings, restricted to ASCII where UTF-16 units and code points
agree). -/
def charListLe : List Char → List Char → Bool
  | [], _ => true
  | _ :: _, [] => false
  | a :: as, b :: bs =>
    if a.toNat < b.toNat then true
    else if b.toNat < a.toNat then false
    else charListLe as bs

/-- JS default string comparison `a <= b` for `Array.prototype.sort`. -/
def strLe (a b : String) : Bool :=
  charListLe a.toList b.toList

/-- Split on maximal runs of characters satisfying `p`, with JS
`String.prototype.split(regex)` edge semantics: the pieces between
maximal separator runs; a leading (resp. trailing) run contributes a
leading (resp. trailing) empty piece, and a string without separators is
returned whole (so `"" ↦ [""]`).  Structural recursion on a fuel
argument (each step consumes at least one character, so fuel
`length + 1` always suffices and the fuel-exhausted branch is
unreachable). -/
def splitRunsFuel (p : Char → Bool) : ℕ → List Char → List Char → List String
  | 0, _, acc => [String.mk acc.reverse]
  | _ + 1, [], acc => [String.mk acc.reverse]
  | fuel + 1, c :: rest, acc =>
    if p c then
      String.mk acc.reverse :: splitRunsFuel p fuel (rest.dropWhile p) []
    else
      splitRunsFuel p fuel rest (c :: acc)

/-- Split on maximal runs of characters satisfying `p`
(JS `split(/[...]+/)`). -/
def splitRunsChars (p : Char → Bool) (l : List Char) (acc : List Char) :
    List String :=
  splitRunsFuel p (l.length + 1) l acc

/-- JS `String.prototype.split(/\s+/)` on a character list. -/
def splitWSChars (l : List Char) (acc : List Char) : List String :=
  splitRunsChars Char.isWhitespace l acc

/-- JS `s.split(/\s+/)`. -/
def jsSplitWS (s : String) : List String :=
  splitWSChars s.toList []

/-- Split on every occurrence of a single character (used for `/m`
line-based regex matching: lines are the pieces between `'\n'`s). -/
def splitOnChar (sep : Char) : List Char → List (List Char)
  | [] => [[]]
  | c :: rest =>
    match splitOnChar sep rest with
    | [] => [[]]
    | h :: t => if c = sep then [] :: h :: t else (c :: h) :: t

/-- The lines of a string (for JS multiline `^...$` regexes). -/
def linesOf (s : String) : List (List Char) :=
  splitOnChar '\n' s.toList

/-- JS `String.prototype.replace(pat, repl)` with a plain-string pattern:
replaces the first occurrence only. -/
def replFirstChars (pat repl : List Char) : List Char → List Char
  | [] => []
  | c :: rest =>
    if pat.isPrefixOf (c :: rest) then repl ++ (c :: rest).drop pat.length
    else c :: replFirstChars pat repl rest

/-- JS `s.replace(pat, repl)` (first occurrence). -/
def jsReplaceFirst (s pat repl : String) : String :=
  String.mk (replFirstChars pat.toList repl.toList s.toList)

/-- The stop-word set of `tokenizeAndNormalize`. -/
def stopWords : List String :=
  ["what", "is", "are", "the", "how", "why", "when", "where", "can", "could",
   "would", "should", "do", "does", "did", "a", "an", "and", "or", "but",
   "in", "on", "at", "to", "for", "of", "with", "by", "from", "about",
   "search", "find", "tell", "me", "give", "show", "explain", "describe",
   "want", "know", "need", "help", "this", "that", "these", "those", "i",
   "you", "he", "she", "it", "we", "they"]

/-- `tokenizeAndNormalize(text)`: lowercase, replace every non-word
character (`[^\w\s]`, and in effect every whitespace character too, since
the subsequent split is on whitespace) by a space, split on whitespace,
keep tokens of length `> 2` that are not stop words, and cap at the first
1000 tokens. -/
def tokenizeAndNormalize (text : String) : List String :=
  let replaced := (strToLower text).toList.map fun c => if isWordChar c then c else ' '
  ((splitWSChars replaced []).filter fun w =>
      decide (2 < w.length) && !(stopWords.contains w)).take 1000

/-- JS `s.split(/[-_\s]+/)` (used on filenames). -/
def splitFilenameParts (s : String) : List String :=
  splitRunsChars (fun c => c = '-' || c = '_' || c.isWhitespace) s.toList []

/-- The backtick character (written via its code point). -/
def btChar : Char := Char.ofNat 96

/-- Collapse every run of three or more newlines to exactly two
(JS `replace(/\n{3,}/g, '\n\n')`).  The first argument is fuel,
instantiated with the length of the list. -/
def collapseNLAux : ℕ → List Char → List Char
  | 0, l => l
  | _ + 1, [] => []
  | fuel + 1, c :: rest =>
    if c = '\n' then
      let run := rest.takeWhile (fun d => d = '\n')
      let n := run.length + 1
      let rest2 := rest.drop run.length
      (if 3 ≤ n then ['\n', '\n'] else List.replicate n '\n') ++ collapseNLAux fuel rest2
    else c :: collapseNLAux fuel rest

/-- One attempted match of `/\*{1,2}([^*]+)\*{1,2}/` at the head of the
list (greedy `\*{1,2}` with backtracking, greedy `[^*]+`): returns the
captured group and the remainder after the match. -/
def emphOpen (n : ℕ) (l : List Char) : Option (List Char × List Char) :=
  if (List.replicate n '*').isPrefixOf l then
    let rest := l.drop n
    let run := rest.takeWhile (fun d => d ≠ '*')
    if run.isEmpty then none
    else
      let rest2 := rest.drop run.length
      if (List.replicate 2 '*').isPrefixOf rest2 then some (run, rest2.drop 2)
      else if (List.replicate 1 '*').isPrefixOf rest2 then some (run, rest2.drop 1)
      else none
  else none

/-- `emphOpen` trying the two-star opener first, then one star. -/
def emphMatch (l : List Char) : Option (List Char × List Char) :=
  (emphOpen 2 l).orElse fun _ => emphOpen 1 l

/-- Global replacement `replace(/\*{1,2}([^*]+)\*{1,2}/g, '$1')`:
left-to-right non-overlapping scan. -/
def stripEmphAux : ℕ → List Char → List Char
  | 0, l => l
  | _ + 1, [] => []
  | fuel + 1, c :: rest =>
    match emphMatch (c :: rest) with
    | some (run, remainder) => run ++ stripEmphAux fuel remainder
    | none => c :: stripEmphAux fuel rest

/-- One attempted match of `` /`([^`]+)`/ `` at the head of the list. -/
def btMatch (l : List Char) : Option (List Char × List Char) :=
  match l with
  | c :: rest =>
    if c = btChar then
      let run := rest.takeWhile (fun d => d ≠ btChar)
      if run.isEmpty then none
      else
        let rest2 := rest.drop run.length
        match rest2 with
        | d :: rest3 => if d = btChar then some (run, rest3) else none
        | [] => none
    else none
  | [] => none

/-- Global replacement `` replace(/`([^`]+)`/g, '$1') ``. -/
def stripBackticksAux : ℕ → List Char → List Char
  | 0, l => l
  | _ + 1, [] => []
  | fuel + 1, c :: rest =>
    match btMatch (c :: rest) with
    | some (run, remainder) => run ++ stripBackticksAux fuel remainder
    | none => c :: stripBackticksAux fuel rest

/-- Match of `/^#{1,(maxHash)}\s+(.+)$/` against one (newline-free) line,
returning the captured group: 1 to `maxHash` hashes, at least one
whitespace character, then a non-empty rest of line.  Greedy `\s+` with
backtracking: when the line ends in whitespace only, the group is the
last whitespace character (requires at least two whitespace characters).
A `\s+` run spanning the line break (possible for the real multiline
regex when a line consists of hashes and trailing whitespace only) is not
modelled; no modelled input exercises that corner. -/
def hashHeaderMatch (maxHash : ℕ) (line : List Char) : Option (List Char) :=
  let k := (line.takeWhile (fun c => c = '#')).length
  if k = 0 || maxHash < k then none
  else
    let rest := line.drop k
    let ws := rest.takeWhile Char.isWhitespace
    if ws.isEmpty then none
    else
      let tail := rest.drop ws.length
      if !tail.isEmpty then some tail
      else if 2 ≤ ws.length then some (ws.drop (ws.length - 1)) else none

/-- First line of the content matching the title regex `/^#\s+(.+)$/m`,
returning the whole matched line (which is what `titleMatch[0]` is, used
for removal) and the captured group. -/
def findTitleLine : List (List Char) → Option (List Char × List Char)
  | [] => none
  | l :: rest =>
    match hashHeaderMatch 1 l with
    | some g => some (l, g)
    | none => findTitleLine rest

/-- A parsed knowledge-base document (interface `KnowledgeDocument`;
the optional `searchScore` field lives on search results in the model). -/
structure KnowledgeDocument (K : Type) where
  id : String
  title : String
  content : String
  tags : List String
  source : String
  relevance : K
deriving DecidableEq

/-- The fixed technology-keyword list of `extractTags`. -/
def techKeywords : List String :=
  ["ai", "artificial intelligence", "machine learning", "ml", "deep learning",
   "data science", "analytics", "python", "javascript", "typescript", "react",
   "cloud", "aws", "azure", "docker", "kubernetes", "blockchain", "crypto",
   "cybersecurity", "security", "quantum", "computing", "algorithm", "database",
   "api", "web", "mobile", "devops", "agile", "scrum"]

/-- `extractTags(title, content, filename)`: filename parts (length `> 2`),
then title words (length `> 3`), then technology keywords occurring in the
content, gathered in a `Set` (insertion order, deduplicated) and capped at
10. -/
def extractTags (title content filename : String) : List String :=
  let filenameTags := (splitFilenameParts
      (jsReplaceFirst (strToLower filename) ".md" "")).filter fun t => 2 < t.length
  let titleWords := (jsSplitWS (strToLower title)).filter fun w => 3 < w.length
  let lowerContent := strToLower content
  let contentKeys := techKeywords.filter fun kw => strIncludes lowerContent kw
  ((filenameTags ++ titleWords ++ contentKeys).foldl jsSetAdd []).take 10

/-- `calculateRelevance(title, content, tags)`. -/
def calculateRelevance {K : Type} [LinearOrderedField K]
    (title content : String) (tags : List String) : K :=
  have t1 : K := if 10 < title.length then 1 / 10 else 0
  have t2 : K := if strIncludes title "Fundamentals" || strIncludes title "Guide"
    then 1 / 10 else 0
  have cl := content.length
  have c1 : K := if 500 < cl then 1 / 10 else 0
  have c2 : K := if 1000 < cl then 1 / 10 else 0
  have c3 : K := if 2000 < cl then 1 / 10 else 0
  have tg : K := min ((tags.length : K) * (2 / 100)) (2 / 10)
  min ((1 / 2 : K) + t1 + t2 + c1 + c2 + c3 + tg) 1

/-- `parseMarkdownDocument(content, filename)`: extract the title from the
first `#`-heading (falling back to the filename without `.md`), remove the
title line, normalize whitespace and strip emphasis/backtick markers, then
derive tags, relevance and the id.  The source wraps this in `try/catch`
returning `null` on exception; the modelled computation is total, so the
`null` branch is unreachable here. -/
def parseMarkdownDocument {K : Type} [LinearOrderedField K]
    (content filename : String) : KnowledgeDocument K :=
  let tm := findTitleLine (linesOf content)
  let title := match tm with
    | some (_, g) => strTrim (String.mk g)
    | none => jsReplaceFirst filename ".md" ""
  let cleanContent0 := match tm with
    | some (l, _) => strTrim (jsReplaceFirst content (String.mk l) "")
    | none => content
  let c1 := collapseNLAux cleanContent0.length cleanContent0.toList
  let c2 := stripEmphAux c1.length c1
  let c3 := stripBackticksAux c2.length c2
  let cleanContent := strTrim (String.mk c3)
  let tags := extractTags title cleanContent filename
  let relevance : K := calculateRelevance title cleanContent tags
  let id := String.mk (((strToLower (jsReplaceFirst filename ".md" "")).toList).map
    fun c => if ('a' ≤ c && c ≤ 'z') || ('0' ≤ c && c ≤ '9') then c else '_')
  { id := id, title := title, content := cleanContent, tags := tags,
    source := filename, relevance := relevance }

/-- One entry of the inverted index (interface `InvertedIndex` value type):
the insertion-ordered set of ids of documents containing the term, the
total number of occurrences across all documents, and the IDF. -/
structure InvEntry (K : Type) where
  documents : List String
  frequency : ℕ
  idf : K

/-- One entry of the per-document index (interface `DocumentIndex` value
type).  `termFrequency` and `tfidfVector` are JS `Map`s read with
`get(k) || 0`, modelled as total functions defaulting to `0`. -/
structure DocEntry (K : Type) where
  document : KnowledgeDocument K
  termFrequency : String → ℕ
  tfidfVector : String → K
  length : ℕ
  topics : List String
  embeddings : List K

/-- The index snapshot (interface `KnowledgeBaseIndex`).  The inverted
index is modelled by its lookup function (its key enumeration order is
never consumed by the source); the document index keeps JS object key
insertion order because `Object.values` is consumed by the loader. -/
structure KnowledgeBaseIndex (K : Type) where
  invertedIndex : String → Option (InvEntry K)
  documentIndex : List (String × DocEntry K)
  totalDocuments : ℕ
  vocabulary : List String
  averageDocumentLength : K
  lastIndexed : ℕ

/-- `createEmptyIndex(lastIndexed)`. -/
def createEmptyIndex {K : Type} [LinearOrderedField K]
    (lastIndexed : ℕ) : KnowledgeBaseIndex K :=
  { invertedIndex := fun _ => none, documentIndex := [], totalDocuments := 0,
    vocabulary := [], averageDocumentLength := 0, lastIndexed := lastIndexed }

/-- `extractTopicsFromFilename(filename)`: lowercase, drop `.md`, split on
`[-_\s]+`, keep parts of length `> 3`. -/
def extractTopicsFromFilename (filename : String) : List String :=
  (splitFilenameParts (jsReplaceFirst (strToLower filename) ".md" "")).filter
    fun part => 3 < part.length

/-- `createSimpleEmbeddings(words, vocabulary)`: the frequency of each of
the first `min 50 |vocabulary|` vocabulary terms (in insertion order) in
the document's token list. -/
def createSimpleEmbeddings {K : Type} [LinearOrderedField K]
    (words vocabulary : List String) : List K :=
  (vocabulary.take (min 50 vocabulary.length)).map fun term =>
    ((words.count term : ℕ) : K)

/-- The token list a document is indexed under:
`tokenizeAndNormalize((doc.title + " " + doc.content).toLowerCase())`. -/
def docTokens {K : Type} (doc : KnowledgeDocument K) : List String :=
  tokenizeAndNormalize (strToLower (doc.title ++ " " ++ doc.content))

/-- The IDF formula of the index builder:
`Math.log(totalDocuments / (1 + documentFrequency))`. -/
def mkIdf {K : Type} [LinearOrderedField K]
    (ops : RealOps K) (total df : ℕ) : K :=
  ops.log ((total : K) / (1 + (df : K)))

/-- State of the inner word loop of `buildKnowledgeBaseIndex`:
the current document's term-frequency map, and the vocabulary and
(pre-IDF) inverted index accumulated across documents. -/
structure ScanSt where
  tf : String → ℕ
  vocab : List String
  inv : String → Option (List String × ℕ)

/-- One step of the word loop: bump the term frequency, add the word to
the vocabulary, and record the document id and one occurrence in the
inverted index. -/
def scanWord (docId : String) (st : ScanSt) (w : String) : ScanSt :=
  { tf := fun t => if t = w then st.tf t + 1 else st.tf t
    vocab := jsSetAdd st.vocab w
    inv := fun t =>
      if t = w then
        some (match st.inv w with
          | none => ([docId], 1)
          | some p => (jsSetAdd p.1 docId, p.2 + 1))
      else st.inv t }

/-- State of the outer document loop of `buildKnowledgeBaseIndex`.
Document entries carry a placeholder `tfidfVector` (the source populates
it only after the IDF pass). -/
structure BuildSt (K : Type) where
  inv : String → Option (List String × ℕ)
  docIdx : List (String × DocEntry K)
  vocab : List String
  totalLen : ℕ

/-- One step of the document loop: tokenize, scan the words, and store the
document entry (keyed by id, overwriting in place on a repeated id as JS
property assignment does).  Embeddings are computed against the vocabulary
as of this document, exactly as in the source. -/
def processDoc {K : Type} [LinearOrderedField K]
    (st : BuildSt K) (doc : KnowledgeDocument K) : BuildSt K :=
  let words := docTokens doc
  let scan := (words.foldl (scanWord doc.id) ⟨fun _ => 0, st.vocab, st.inv⟩)
  { inv := scan.inv
    docIdx := upsert st.docIdx doc.id
      { document := doc
        termFrequency := scan.tf
        tfidfVector := fun _ => 0
        length := words.length
        topics := extractTopicsFromFilename doc.source
        embeddings := createSimpleEmbeddings words scan.vocab }
    vocab := scan.vocab
    totalLen := st.totalLen + words.length }

/-- `buildKnowledgeBaseIndex(documents, lastIndexed)`: scan all documents,
then compute IDF per vocabulary term from the final document sets, then
fill each document's TF-IDF vector
(`tfidf = (tf / length) * idf`) from the final IDF table.
`averageDocumentLength` of an empty document list is NaN in JS (`0/0`);
it is `0` here and never consumed. -/
def buildKnowledgeBaseIndex {K : Type} [LinearOrderedField K]
    (ops : RealOps K) (documents : List (KnowledgeDocument K))
    (lastIndexed : ℕ) : KnowledgeBaseIndex K :=
  let st := documents.foldl processDoc ⟨fun _ => none, [], [], 0⟩
  let n := documents.length
  let idfOf : String → K := fun t =>
    match st.inv t with
    | some p => mkIdf ops n p.1.length
    | none => 0
  { invertedIndex := fun t =>
      (st.inv t).map fun p => ⟨p.1, p.2, mkIdf ops n p.1.length⟩
    documentIndex := st.docIdx.map fun pr =>
      (pr.1,
        { pr.2 with tfidfVector := fun t =>
            if pr.2.termFrequency t = 0 then 0
            else ((pr.2.termFrequency t : ℕ) : K) / ((pr.2.length : ℕ) : K) * idfOf t })
    totalDocuments := n
    vocabulary := st.vocab
    averageDocumentLength := ((st.totalLen : ℕ) : K) / ((n : ℕ) : K)
    lastIndexed := lastIndexed }

/-- The synonym table of `expandQueryForSmallKb`; absent keys yield `[]`
(JS `undefined` guarded by `if (synonyms)`). -/
def synonymMap : String → List String
  | "ai" => ["artificial intelligence", "machine learning", "neural networks",
             "intelligent systems"]
  | "ml" => ["machine learning", "artificial intelligence", "algorithms",
             "predictive models"]
  | "data" => ["data science", "analytics", "datasets", "information"]
  | "cloud" => ["cloud computing", "aws", "azure", "scalability", "distributed"]
  | "security" => ["cybersecurity", "infosec", "encryption", "threats",
                   "protection"]
  | "web" => ["web development", "frontend", "backend", "javascript", "html",
              "css"]
  | "mobile" => ["mobile development", "ios", "android", "react native", "apps"]
  | "database" => ["data storage", "sql", "nosql", "mongodb", "postgresql"]
  | "api" => ["rest", "graphql", "web services", "integration", "microservices"]
  | "devops" => ["ci/cd", "automation", "deployment", "monitoring",
                 "infrastructure"]
  | _ => []

/-- `expandQueryForSmallKb(queryWords, index)`: a `Set` seeded with the
query words, then every synonym of every query word, returned in
insertion order.  The `index` parameter is unused in the source too. -/
def expandQueryForSmallKb {K : Type} (queryWords : List String)
    (_index : KnowledgeBaseIndex K) : List String :=
  queryWords.foldl (fun acc w => (synonymMap w).foldl jsSetAdd acc)
    (queryWords.foldl jsSetAdd [])

/-- The related-term table of `getRelatedTerms` (distinct from
`synonymMap`). -/
def relatedTermMap : String → List String
  | "ai" => ["artificial intelligence", "machine learning", "neural networks",
             "deep learning"]
  | "ml" => ["machine learning", "algorithms", "predictive models",
             "data science"]
  | "data" => ["analytics", "database", "big data", "information"]
  | "cloud" => ["aws", "azure", "scalability", "distributed systems"]
  | "security" => ["cybersecurity", "encryption", "authentication", "threats"]
  | "web" => ["frontend", "backend", "javascript", "html", "css", "react"]
  | "mobile" => ["ios", "android", "react native", "flutter", "app development"]
  | "database" => ["sql", "nosql", "mongodb", "postgresql", "data storage"]
  | "api" => ["rest", "graphql", "microservices", "integration"]
  | "devops" => ["ci/cd", "docker", "kubernetes", "automation"]
  | _ => []

/-- `getRelatedTerms(queryWords)`: concatenation (duplicates kept) of the
related terms of each query word. -/
def getRelatedTerms (queryWords : List String) : List String :=
  queryWords.flatMap relatedTermMap

/-- The temporal cue words tested against the query. -/
def temporalTerms : List String :=
  ["recent", "latest", "new", "current", "modern", "2024", "2025"]

/-- `createQueryEmbedding(queryWords, vocabulary)`: a zero vector of
dimension `min 50 |vocabulary|` with a `1` at the vocabulary position
(`indexOf`) of each query word that falls inside the vector. -/
def createQueryEmbedding {K : Type} [LinearOrderedField K]
    (queryWords vocabulary : List String) : List K :=
  have size := min 50 vocabulary.length
  queryWords.foldl (fun emb w =>
      have idx := vocabulary.indexOf w
      if idx < size then emb.set idx 1 else emb)
    (List.replicate size (0 : K))

/-- `cosineSimilarity(a, b)`: one loop over the common prefix accumulating
the dot product and both squared norms, returning `0` when either norm is
zero. -/
def cosineSimilarity {K : Type} [LinearOrderedField K]
    (ops : RealOps K) (a b : List K) : K :=
  have acc := (a.zip b).foldl
    (fun s p => (s.1 + p.1 * p.2, s.2.1 + p.1 * p.1, s.2.2 + p.2 * p.2))
    ((0 : K), (0 : K), (0 : K))
  if acc.2.1 = 0 || acc.2.2 = 0 then 0
  else acc.1 / (ops.sqrt acc.2.1 * ops.sqrt acc.2.2)

/-- `analyzeQueryIntent(queryWords, doc)`: intent boosts for how-to,
definition, comparison and technical queries. -/
def analyzeQueryIntent {K : Type} [LinearOrderedField K]
    (queryWords : List String) (doc : KnowledgeDocument K) : K :=
  have howToWords := ["how", "guide", "tutorial", "steps", "process", "method"]
  have definitionWords := ["what", "definition", "meaning", "explain", "overview"]
  have comparisonWords := ["vs", "versus", "compare", "difference", "better", "best"]
  have technicalWords := ["code", "implementation", "api", "framework", "library",
    "architecture"]
  have s1 : K :=
    if queryWords.any howToWords.contains &&
        (strIncludes doc.content "##" || strIncludes doc.content "###" ||
         strIncludes doc.content "- ")
    then 15 else 0
  have s2 : K :=
    if queryWords.any definitionWords.contains &&
        (strIncludes doc.title "Fundamentals" || strIncludes doc.title "Overview" ||
         strIncludes doc.content "## What")
    then 12 else 0
  have s3 : K :=
    if queryWords.any comparisonWords.contains &&
        (strIncludes doc.content "vs" || strIncludes doc.content "versus" ||
         strIncludes doc.content "Advantages:" || strIncludes doc.content "Disadvantages:")
    then 18 else 0
  have s4 : K :=
    if queryWords.any technicalWords.contains &&
        (strIncludes doc.content "```" || strIncludes doc.content "`" ||
         doc.tags.contains "api" || doc.tags.contains "framework")
    then 20 else 0
  s1 + s2 + s3 + s4

/-- Consecutive pairs of a list (the `queryWords[i], queryWords[i+1]`
loops of scoring factors 4 and 8). -/
def adjPairs {α : Type} : List α → List (α × α)
  | a :: b :: t => (a, b) :: adjPairs (b :: t)
  | _ => []

/-- Scoring factor 1: summed positive TF-IDF values of the expanded query
terms, weighted by 150 (added only when at least one term has positive
TF-IDF). -/
def tfidfFactor {K : Type} [LinearOrderedField K]
    (expandedQuery : List String) (entry : DocEntry K) : K :=
  have acc := expandedQuery.foldl
    (fun (a : K × ℕ) term =>
      have tfidf := entry.tfidfVector term
      if 0 < tfidf then (a.1 + tfidf, a.2 + 1) else a)
    (0, 0)
  if 0 < acc.2 then acc.1 * 150 else 0

/-- Scoring factor 2: 50 points per expanded query word matching a topic
(substring containment in either direction). -/
def topicsFactor {K : Type} [LinearOrderedField K]
    (expandedQuery topics : List String) : K :=
  ((expandedQuery.filter fun w =>
      topics.any fun topic => strIncludes topic w || strIncludes w topic).length : K)
    * 50

/-- Scoring factor 3a: 120 points when the lowercased title contains the
full lowercased query as a substring. -/
def exactTitleFactor {K : Type} [LinearOrderedField K]
    (lowerTitle lowerQuery : String) : K :=
  if strIncludes lowerTitle lowerQuery then 120 else 0

/-- Scoring factor 3b: 80 points when the lowercased content contains the
full lowercased query. -/
def exactContentFactor {K : Type} [LinearOrderedField K]
    (lowerContent lowerQuery : String) : K :=
  if strIncludes lowerContent lowerQuery then 80 else 0

/-- Scoring factor 4a: 40 points per consecutive two-word query phrase
occurring in the title. -/
def phraseTitleFactor {K : Type} [LinearOrderedField K]
    (queryWords : List String) (lowerTitle : String) : K :=
  (((adjPairs queryWords).filter fun p =>
      strIncludes lowerTitle (p.1 ++ " " ++ p.2)).length : K) * 40

/-- Scoring factor 4b: 25 points per consecutive two-word query phrase
occurring in the content. -/
def phraseContentFactor {K : Type} [LinearOrderedField K]
    (queryWords : List String) (lowerContent : String) : K :=
  (((adjPairs queryWords).filter fun p =>
      strIncludes lowerContent (p.1 ++ " " ++ p.2)).length : K) * 25

/-- Scoring factor 5: 15 points per (expanded query word, tag) pair that
matches exactly or by substring containment in either direction. -/
def tagsFactor {K : Type} [LinearOrderedField K]
    (expandedQuery tags : List String) : K :=
  (((expandedQuery.map fun w =>
      (tags.filter fun tag =>
        have lowerTag := strToLower tag
        lowerTag = w || strIncludes lowerTag w || strIncludes w lowerTag).length).sum : ℕ) : K)
    * 15

/-- Scoring factor 6: cosine similarity between the binary query embedding
and the stored document embedding, weighted by 35, counted only above
0.1. -/
def similarityFactor {K : Type} [LinearOrderedField K] (ops : RealOps K)
    (expandedQuery vocabulary : List String) (embeddings : List K) : K :=
  have s := cosineSimilarity ops (createQueryEmbedding expandedQuery vocabulary)
    embeddings
  if (1 / 10 : K) < s then s * 35 else 0

/-- Scoring factor 7: fraction of distinct query words occurring in the
content (as substrings), weighted by 30. -/
def coverageFactor {K : Type} [LinearOrderedField K]
    (queryWords : List String) (lowerContent : String) : K :=
  have uniq := dedupFirst queryWords
  have ratio : K :=
    ((uniq.filter fun w => strIncludes lowerContent w).length : K) / (uniq.length : K)
  if 0 < ratio then ratio * 30 else 0

/-- Largest gap `g ≤ bound` such that the gap consists of non-newline
characters and `w2` starts right after it: the greedy `.{0,50}` of the
proximity regex. -/
def bestGap (w2 after : List Char) : ℕ → Option ℕ
  | 0 => if w2.isPrefixOf after then some 0 else none
  | g + 1 =>
    if g + 1 ≤ after.length &&
        (after.take (g + 1)).all (fun c => c ≠ '\n') &&
        w2.isPrefixOf (after.drop (g + 1))
    then some (g + 1)
    else bestGap w2 after g

/-- Length of the proximity-regex match `w1.{0,50}w2` at the head of the
list, if any. -/
def proxMatchLen (w1 w2 l : List Char) : Option ℕ :=
  if w1.isPrefixOf l then
    (bestGap w2 (l.drop w1.length) 50).map fun g => w1.length + g + w2.length
  else none

/-- Number of non-overlapping left-to-right matches of `w1.{0,50}w2`
(JS `match(re, 'g').length`).  Fuel is instantiated with the list
length. -/
def proxCount (w1 w2 : List Char) : ℕ → List Char → ℕ
  | 0, _ => 0
  | _ + 1, [] => 0
  | fuel + 1, c :: rest =>
    match proxMatchLen w1 w2 (c :: rest) with
    | some len => 1 + proxCount w1 w2 fuel ((c :: rest).drop len)
    | none => proxCount w1 w2 fuel rest

/-- Scoring factor 8: 8 points per proximity match of each consecutive
query-word pair within 50 characters in the content (only for queries of
more than one word; a one-word query contributes 0 through the empty pair
list). -/
def proximityFactor {K : Type} [LinearOrderedField K]
    (queryWords : List String) (lowerContent : String) : K :=
  have chars := lowerContent.toList
  have total := ((adjPairs queryWords).map fun p =>
    proxCount p.1.toList p.2.toList (chars.length + 1) chars * 8).sum
  if 0 < total then ((total : ℕ) : K) else 0

/-- Scoring factor 9: 12 points per (header line, query word) pair where
the lowercased header text contains the word. -/
def headersFactor {K : Type} [LinearOrderedField K]
    (queryWords : List String) (content : String) : K :=
  have headers := (linesOf content).filterMap (hashHeaderMatch 6)
  ((headers.map fun h =>
      have lowerHeader := strToLower (String.mk h)
      (queryWords.filter fun w => strIncludes lowerHeader w).length).sum : K) * 12

/-- Split off the text between the opening triple backtick already
consumed and the next triple backtick, with the remainder after it. -/
def findTripleClose (bt : Char) : List Char → Option (List Char × List Char)
  | [] => none
  | c :: t =>
    if [bt, bt, bt].isPrefixOf (c :: t) then some ([], (c :: t).drop 3)
    else (findTripleClose bt t).map fun p => (c :: p.1, p.2)

/-- The code-span matches of ``/```[\s\S]*?```|`[^`\n]+`/g`` in order:
fenced blocks (lazy close) or inline spans (no newline), scanned
left-to-right without overlap.  Fuel is instantiated with the list
length. -/
def codeSegments : ℕ → List Char → List (List Char)
  | 0, _ => []
  | _ + 1, [] => []
  | fuel + 1, c :: rest =>
    if [btChar, btChar, btChar].isPrefixOf (c :: rest) then
      match findTripleClose btChar ((c :: rest).drop 3) with
      | some (between, after) =>
        ([btChar, btChar, btChar] ++ between ++ [btChar, btChar, btChar]) ::
          codeSegments fuel after
      | none => codeSegments fuel rest
    else if c = btChar then
      have run := rest.takeWhile fun d => d ≠ btChar && d ≠ '\n'
      if run.isEmpty then codeSegments fuel rest
      else
        match rest.drop run.length with
        | d :: rest2 =>
          if d = btChar then (btChar :: run ++ [btChar]) :: codeSegments fuel rest2
          else codeSegments fuel rest
        | [] => codeSegments fuel rest
    else codeSegments fuel rest

/-- Scoring factor 10: 10 points per (code segment, query word) pair where
the lowercased segment contains the word. -/
def codeFactor {K : Type} [LinearOrderedField K]
    (queryWords : List String) (content : String) : K :=
  have chars := content.toList
  have segs := codeSegments (chars.length + 1) chars
  ((segs.map fun seg =>
      have lowerSeg := strToLower (String.mk seg)
      (queryWords.filter fun w => strIncludes lowerSeg w).length).sum : K) * 10

/-- Match of `/^[\s]*[-*+]\s+(.+)$/` against one line, returning the
captured group (same greedy-`\s+` treatment as `hashHeaderMatch`). -/
def listLineMatch (line : List Char) : Option (List Char) :=
  have ws0 := line.takeWhile Char.isWhitespace
  match line.drop ws0.length with
  | b :: rest2 =>
    if b = '-' || b = '*' || b = '+' then
      have ws := rest2.takeWhile Char.isWhitespace
      if ws.isEmpty then none
      else
        have tail := rest2.drop ws.length
        if !tail.isEmpty then some tail
        else if 2 ≤ ws.length then some (ws.drop (ws.length - 1)) else none
    else none
  | [] => none

/-- Scoring factor 11: 6 points per (list-item line, query word) pair
where the lowercased item text contains the word. -/
def listsFactor {K : Type} [LinearOrderedField K]
    (queryWords : List String) (content : String) : K :=
  have items := (linesOf content).filterMap listLineMatch
  ((items.map fun it =>
      have lowerItem := strToLower (String.mk it)
      (queryWords.filter fun w => strIncludes lowerItem w).length).sum : K) * 6

/-- Scoring factor 12: unique-word density of the raw content
(`|Set(lowercased words)| / |words|`), weighted by 15 when above 0.3. -/
def densityFactor {K : Type} [LinearOrderedField K] (content : String) : K :=
  have wordCount := (jsSplitWS content).length
  have uniqueWords := dedupFirst (jsSplitWS (strToLower content))
  have ratio : K := (uniqueWords.length : K) / (wordCount : K)
  if (3 / 10 : K) < ratio then ratio * 15 else 0

/-- Scoring factor 13: cumulative bonuses for raw word counts above 500,
1000 and 2000. -/
def lengthFactor {K : Type} [LinearOrderedField K] (content : String) : K :=
  have wc := (jsSplitWS content).length
  (if 500 < wc then (10 : K) else 0) + (if 1000 < wc then (15 : K) else 0) +
    (if 2000 < wc then (20 : K) else 0)

/-- Scoring factor 14: 8 points per query word contained in the lowercased
source filename. -/
def filenameFactor {K : Type} [LinearOrderedField K]
    (queryWords : List String) (source : String) : K :=
  ((queryWords.filter fun w => strIncludes (strToLower source) w).length : K) * 8

/-- The temporal keyword list of scoring factor 15. -/
def temporalKeywords : List String :=
  ["recent", "latest", "new", "current", "modern", "2024", "2025", "advances",
   "breakthroughs", "developments", "trends", "emerging", "cutting-edge",
   "state-of-the-art"]

/-- The future-looking term list of scoring factor 15. -/
def futureTerms : List String :=
  ["future", "emerging", "evolving", "advancing", "progress", "innovation",
   "next-generation", "upcoming"]

/-- Title part of scoring factor 15: 30 points per temporal keyword in the
lowercased title. -/
def temporalTitleScore {K : Type} [LinearOrderedField K]
    (lowerTitle : String) : K :=
  ((temporalKeywords.filter fun kw => strIncludes lowerTitle kw).length : K) * 30

/-- Content part of scoring factor 15: 20 points per temporal keyword and
12 points per future-looking term in the lowercased content. -/
def temporalContentScore {K : Type} [LinearOrderedField K]
    (lowerContent : String) : K :=
  ((temporalKeywords.filter fun kw => strIncludes lowerContent kw).length : K) * 20
    + ((futureTerms.filter fun t => strIncludes lowerContent t).length : K) * 12

/-- Scoring factor 15: temporal boost, applied only when the query
contains a temporal cue word. -/
def temporalFactor {K : Type} [LinearOrderedField K]
    (hasTemporalQuery : Bool) (lowerTitle lowerContent : String) : K :=
  if hasTemporalQuery then
    temporalContentScore lowerContent + temporalTitleScore lowerTitle
  else 0

/-- Scoring factor 17: 5 points per related term (duplicates counted)
contained in the lowercased content. -/
def crossrefFactor {K : Type} [LinearOrderedField K]
    (queryWords : List String) (lowerContent : String) : K :=
  (((getRelatedTerms queryWords).filter fun t =>
      strIncludes lowerContent t).length : K) * 5

/-- The combined 18-factor raw score of one candidate document (the body
of the `candidateDocIds.forEach` loop of `searchDocuments`).  The source
accumulates into a mutable `score`; every increment is independent of the
running value, so the score is the sum of the factors in source order. -/
def scoreEntry {K : Type} [LinearOrderedField K] (ops : RealOps K)
    (vocabulary : List String) (query : String)
    (queryWords expandedQuery : List String) (hasTemporalQuery : Bool)
    (entry : DocEntry K) : K :=
  have doc := entry.document
  have lowerTitle := strToLower doc.title
  have lowerContent := strToLower doc.content
  have lowerQuery := strToLower query
  tfidfFactor expandedQuery entry
    + topicsFactor expandedQuery entry.topics
    + exactTitleFactor lowerTitle lowerQuery
    + exactContentFactor lowerContent lowerQuery
    + phraseTitleFactor queryWords lowerTitle
    + phraseContentFactor queryWords lowerContent
    + tagsFactor expandedQuery doc.tags
    + similarityFactor ops expandedQuery vocabulary entry.embeddings
    + coverageFactor queryWords lowerContent
    + proximityFactor queryWords lowerContent
    + headersFactor queryWords doc.content
    + codeFactor queryWords doc.content
    + listsFactor queryWords doc.content
    + densityFactor doc.content
    + lengthFactor doc.content
    + filenameFactor queryWords doc.source
    + temporalFactor hasTemporalQuery lowerTitle lowerContent
    + analyzeQueryIntent queryWords doc
    + crossrefFactor queryWords lowerContent
    + doc.relevance * 8

/-- `Math.min(Math.round((score / 2000) * 100), 100)`: the normalized
integer score attached to a result that passed the threshold. -/
def normalizedScore {K : Type} [LinearOrderedField K] [FloorRing K]
    (score : K) : ℤ :=
  min (round (score / 2000 * 100)) 100

/-- A search result: the document spread together with its normalized
`searchScore` (the `matchDetails` diagnostic array is omitted). -/
structure SearchResult (K : Type) where
  document : KnowledgeDocument K
  searchScore : ℤ
deriving DecidableEq

/-- JS `Array.prototype.slice(0, m)` for a possibly negative `m`. -/
def jsSlice {α : Type} (l : List α) (m : ℤ) : List α :=
  if 0 ≤ m then l.take m.toNat else l.take ((l.length : ℤ) + m).toNat

/-- The candidate id set: union (in insertion order) over the expanded
query terms of the document-id sets from the inverted index. -/
def candidateDocIds {K : Type} (idx : KnowledgeBaseIndex K)
    (expandedQuery : List String) : List String :=
  expandedQuery.foldl (fun acc term =>
    match idx.invertedIndex term with
    | some e => e.documents.foldl jsSetAdd acc
    | none => acc) []

/-- The scored, threshold-filtered candidate list, in candidate order
(before sorting): a candidate is kept iff its document entry exists and
its raw score exceeds 8. -/
def scoredCandidates {K : Type} [LinearOrderedField K] [FloorRing K]
    (ops : RealOps K) (idx : KnowledgeBaseIndex K) (query : String)
    (queryWords expandedQuery : List String) (hasTemporalQuery : Bool) :
    List (SearchResult K) :=
  (candidateDocIds idx expandedQuery).filterMap fun docId =>
    (idx.documentIndex.lookup docId).bind fun entry =>
      have score := scoreEntry ops idx.vocabulary query queryWords expandedQuery
        hasTemporalQuery entry
      if 8 < score then some ⟨entry.document, normalizedScore score⟩ else none

/-- The full scoring pass of the indexed search: tokenize the query (an
empty token list yields no results), expand it, collect candidates
through the inverted index, and score and threshold every candidate.
The source's early `return []` on an empty candidate set is represented
by the scored list being empty in that case. -/
def searchScored {K : Type} [LinearOrderedField K] [FloorRing K]
    (ops : RealOps K) (idx : KnowledgeBaseIndex K) (query : String) :
    List (SearchResult K) :=
  let queryWords := tokenizeAndNormalize query
  if queryWords.isEmpty then []
  else
    scoredCandidates ops idx query queryWords
      (expandQueryForSmallKb queryWords idx)
      (queryWords.any temporalTerms.contains)

/-- The comparator of the result sort, JS
`(a, b) => b.searchScore - a.searchScore` as a total boolean order:
`a` may come before `b` iff `b`'s score is no larger. -/
def byScoreDesc {K : Type} (a b : SearchResult K) : Bool :=
  decide (b.searchScore ≤ a.searchScore)

/-- The indexed search path of `searchDocuments`: the scored candidate
list, sorted by descending normalized score (JS `sort` is stable, as is
`mergeSort`), truncated to `maxResults`.  (When the query has no tokens
or no candidates the source returns `[]` early; `searchScored` is `[]`
then, so sorting and slicing it yields the same `[]`.) -/
def searchDocumentsIndexed {K : Type} [LinearOrderedField K] [FloorRing K]
    (ops : RealOps K) (idx : KnowledgeBaseIndex K) (query : String)
    (maxResults : ℤ) : List (SearchResult K) :=
  jsSlice ((searchScored ops idx query).mergeSort byScoreDesc) maxResults

/-- The stop-word list of the basic fallback search (a strict subset of
the tokenizer's list: the pronouns from `this` onward are absent). -/
def basicStopWords : List String :=
  ["what", "is", "are", "the", "how", "why", "when", "where", "can", "could",
   "would", "should", "do", "does", "did", "a", "an", "and", "or", "but",
   "in", "on", "at", "to", "for", "of", "with", "by", "from", "about",
   "search", "find", "tell", "me", "give", "show", "explain", "describe",
   "want", "know", "need", "help"]

/-- `searchDocumentsBasic(query, documents, maxResults)`: the fallback
used when no index exists.  Splits the lowercased query on whitespace
only (no punctuation replacement, no 1000-token cap), scores 10 per word
in the title and 5 per word in the content, keeps positive scores,
normalizes against 50, sorts and truncates. -/
def searchDocumentsBasic {K : Type} [LinearOrderedField K] [FloorRing K]
    (query : String) (documents : List (KnowledgeDocument K))
    (maxResults : ℤ) : List (SearchResult K) :=
  let queryWords := (jsSplitWS (strToLower query)).filter fun w =>
    decide (2 < w.length) && !(basicStopWords.contains w)
  if queryWords.isEmpty then []
  else
    let results := documents.filterMap fun doc =>
      have score : K :=
        ((queryWords.filter fun w => strIncludes (strToLower doc.title) w).length : K)
            * 10
          + ((queryWords.filter fun w => strIncludes (strToLower doc.content) w).length : K)
            * 5
      if 0 < score then some ⟨doc, min (round (score / 50 * 100)) 100⟩ else none
    jsSlice (results.mergeSort byScoreDesc) maxResults

/-- `searchDocuments(query, documents, maxResults)`: dispatches on the
global index cache (`null` falls back to the basic search; the indexed
path ignores the `documents` argument, as the source does).  The
`try/catch` fallback on a thrown exception is unreachable in the modelled
pure computation. -/
def searchDocuments {K : Type} [LinearOrderedField K] [FloorRing K]
    (ops : RealOps K) (cache : Option (KnowledgeBaseIndex K)) (query : String)
    (documents : List (KnowledgeDocument K)) (maxResults : ℤ) :
    List (SearchResult K) :=
  match cache with
  | none => searchDocumentsBasic query documents maxResults
  | some idx => searchDocumentsIndexed ops idx query maxResults

/-- `CACHE_TTL`: 5 minutes in milliseconds. -/
def CACHE_TTL : ℕ := 5 * 60 * 1000

/-- The observable state of the knowledge-base directory at the time of a
rebuild: missing (`existsSync` false), unreadable (`readdirSync` throws,
landing in the outer `catch`), or a directory listing pairing each
filename with its content (`none` when `readFileSync` throws for that
file, which the per-file `catch` skips). -/
inductive FSView
  | dirMissing
  | dirUnreadable
  | dir (files : List (String × Option String))

/-- The rebuild path of `loadKnowledgeBaseDocuments` (cache absent or
expired): a missing or unreadable directory, or a directory without
markdown files, installs a fresh empty index and returns no documents;
otherwise the markdown files are sorted by name, parsed (readable ones
only) and indexed, and the new index is installed. -/
def loadRebuild {K : Type} [LinearOrderedField K] (ops : RealOps K)
    (now : ℕ) (fs : FSView) :
    Option (KnowledgeBaseIndex K) × List (KnowledgeDocument K) :=
  match fs with
  | FSView.dirMissing => (some (createEmptyIndex now), [])
  | FSView.dirUnreadable => (some (createEmptyIndex now), [])
  | FSView.dir files =>
    let mds := (files.filter fun f => strEndsWith f.1 ".md").mergeSort
      fun a b => strLe a.1 b.1
    if mds.isEmpty then (some (createEmptyIndex now), [])
    else
      let documents := mds.filterMap fun f =>
        f.2.map fun content => parseMarkdownDocument content f.1
      (some (buildKnowledgeBaseIndex ops documents now), documents)

/-- `loadKnowledgeBaseDocuments()`: serve the cached index if it is
younger than `CACHE_TTL`, otherwise rebuild from the file system.  The
pair is (new value of the module-global `knowledgeBaseIndex`, returned
document list). -/
def loadKnowledgeBaseDocuments {K : Type} [LinearOrderedField K]
    (ops : RealOps K) (cache : Option (KnowledgeBaseIndex K)) (now : ℕ)
    (fs : FSView) :
    Option (KnowledgeBaseIndex K) × List (KnowledgeDocument K) :=
  match cache with
  | some idx =>
    if now - idx.lastIndexed < CACHE_TTL then
      (some idx, idx.documentIndex.map fun pr => pr.2.document)
    else loadRebuild ops now fs
  | none => loadRebuild ops now fs

/-- JS `parseInt` restricted to decimal notation: skip leading whitespace,
optional sign, then a maximal digit run; no digits means NaN (`none`).
(The hexadecimal `0x` form of `parseInt` is not modelled; no JSON-
stringified number produces it.) -/
def parseIntJS (s : String) : Option ℤ :=
  let l := s.toList.dropWhile Char.isWhitespace
  let signAndRest : ℤ × List Char :=
    match l with
    | '-' :: t => (-1, t)
    | '+' :: t => (1, t)
    | _ => (1, l)
  let digits := signAndRest.2.takeWhile Char.isDigit
  if digits.isEmpty then none
  else some (signAndRest.1 *
    ((digits.foldl (fun n c => n * 10 + (c.toNat - 48)) 0 : ℕ) : ℤ))

/-- The effective result bound of the `POST` handler:
`Math.min(parseInt(body.maxResults) || MAX_RESULTS, 10)` with
`MAX_RESULTS = 5`.  `body.maxResults` is modelled as the string `parseInt`
coerces its argument to (`none` when the field is absent, in which case
`parseInt(undefined)` is NaN). -/
def effectiveMaxResults (raw : Option String) : ℤ :=
  min
    (match raw.bind parseIntJS with
      | none => 5
      | some n => if n = 0 then 5 else n)
    10

/-- The parsed request body: `(body.query || '').toString()` and the
`maxResults` field as seen by `parseInt`. -/
structure RequestBody where
  query : String
  maxResults : Option String
deriving DecidableEq

/-- The JSON response of the `POST` handler, together with the HTTP
status code.  The wall-clock `searchTime` field is not modelled. -/
structure PostResponse (K : Type) where
  results : List (SearchResult K)
  totalDocuments : ℕ
  success : Bool
  error : Option String
  status : ℕ
deriving DecidableEq

/-- `MAX_CONTENT_LENGTH`-based trimming of one result's content
(`substring(0, 4000) + '...'`). -/
def trimContent {K : Type} (r : SearchResult K) : SearchResult K :=
  if 4000 < r.document.content.length then
    { r with document :=
        { r.document with
            content := String.mk (r.document.content.toList.take 4000) ++ "..." } }
  else r

/-- The body of the `POST` handler after query validation passed: load
(possibly rebuilding) the document set, answer 503 when it is empty,
otherwise search and answer the trimmed results with the document count.
The pair is (response, new cache state). -/
def postValidated {K : Type} [LinearOrderedField K] [FloorRing K]
    (ops : RealOps K) (cache : Option (KnowledgeBaseIndex K)) (now : ℕ)
    (fs : FSView) (query : String) (maxResults : ℤ) :
    PostResponse K × Option (KnowledgeBaseIndex K) :=
  let loaded := loadKnowledgeBaseDocuments ops cache now fs
  let cache2 := loaded.1
  let documents := loaded.2
  if documents.isEmpty then
    (⟨[], 0, false, some "No documents available in knowledge base", 503⟩,
      cache2)
  else
    (⟨(searchDocuments ops cache2 query documents maxResults).map trimContent,
        documents.length, true, none, 200⟩,
      cache2)

/-- The `POST` handler: trim the query, reject length `< 2` or `> 500`
(HTTP 400 with an explanatory error, no truncation or padding), then
proceed with the trimmed query unchanged.  The 5-second timeout race and
the `catch`-all 500 (reachable only via thrown exceptions) are not
modelled. -/
def POST {K : Type} [LinearOrderedField K] [FloorRing K] (ops : RealOps K)
    (cache : Option (KnowledgeBaseIndex K)) (now : ℕ) (fs : FSView)
    (body : RequestBody) : PostResponse K × Option (KnowledgeBaseIndex K) :=
  let query := strTrim body.query
  let maxResults := effectiveMaxResults body.maxResults
  if query.length < 2 then
    (⟨[], 0, false, some "Query must be at least 2 characters long", 400⟩, cache)
  else if 500 < query.length then
    (⟨[], 0, false, some "Query is too long (max 500 characters)", 400⟩, cache)
  else postValidated ops cache now fs query maxResults

/-! Concrete data for witnesses and counterexamples.  `zeroOps` is one
concrete interpretation of `Math.log`/`Math.sqrt` used to evaluate the
model on closed inputs (the theorems themselves quantify over every
interpretation); `realLogOps` is the true real-number interpretation. -/

/-- A concrete executable interpretation of the transcendental functions,
used for closed evaluations. -/
def zeroOps : RealOps ℚ := ⟨fun _ => 0, fun _ => 0⟩

/-- The true interpretation of `Math.log`/`Math.sqrt` over the reals. -/
noncomputable def realLogOps : RealOps ℝ := ⟨Real.log, Real.sqrt⟩

/-- A one-document corpus for the cache counterexample. -/
def exCacheDoc : KnowledgeDocument ℚ :=
  { id := "alpha", title := "Alpha", content := "alpha notes", tags := [],
    source := "alpha.md", relevance := 1 / 2 }

/-- A populated index snapshot built at time 0, later expired. -/
def exCacheIdx : KnowledgeBaseIndex ℚ :=
  buildKnowledgeBaseIndex zeroOps [exCacheDoc] 0

/-- Three-document corpus whose members all contain the token `alpha`,
with three different scores (used for the truncation and bounds
witnesses). -/
def exDocA : KnowledgeDocument ℚ :=
  { id := "w1", title := "Alpha One",
    content := "alpha bravo charlie delta echo", tags := [],
    source := "w1.md", relevance := 1 / 2 }

/-- Second document of the three-document corpus. -/
def exDocB : KnowledgeDocument ℚ :=
  { id := "w2", title := "Beta", content := "alpha bravo charlie", tags := [],
    source := "w2.md", relevance := 1 / 2 }

/-- Third document of the three-document corpus. -/
def exDocC : KnowledgeDocument ℚ :=
  { id := "w3", title := "Gamma", content := "alpha alpha alpha bravo",
    tags := [], source := "w3.md", relevance := 1 / 4 }

/-- The three-document corpus. -/
def exCorpus : List (KnowledgeDocument ℚ) := [exDocA, exDocB, exDocC]

/-- Its index under the `zeroOps` interpretation. -/
def exIdx : KnowledgeBaseIndex ℚ := buildKnowledgeBaseIndex zeroOps exCorpus 0

/-- A document whose id collides with `exCollB` (the loader maps both
filenames `a-b.md` and `a_b.md` to the id `a_b`); it contains the query
term `python`. -/
def exCollA : KnowledgeDocument ℚ :=
  { id := "a_b", title := "Python Guide", content := "python is great python",
    tags := [], source := "a-b.md", relevance := 1 / 2 }

/-- The colliding document processed second (so it owns the document
index entry); it contains no query term at all. -/
def exCollB : KnowledgeDocument ℚ :=
  { id := "a_b", title := "Birds",
    content := "alpha bravo charlie delta echo foxtrot golf hotel india juliet kilo lima",
    tags := [], source := "a_b.md", relevance := 1 / 2 }

/-- The index over the colliding corpus. -/
def exCollIdx : KnowledgeBaseIndex ℚ :=
  buildKnowledgeBaseIndex zeroOps [exCollA, exCollB] 0

/-- Two documents sharing the id `a_b` and both containing the token
`python`, over the reals (for the IDF counterexample). -/
noncomputable def exIdfDocA : KnowledgeDocument ℝ :=
  { id := "a_b", title := "One", content := "python", tags := [],
    source := "a-b.md", relevance := 1 / 2 }

/-- The second colliding document of the IDF counterexample. -/
noncomputable def exIdfDocB : KnowledgeDocument ℝ :=
  { id := "a_b", title := "Two", content := "python", tags := [],
    source := "a_b.md", relevance := 1 / 2 }

/-- Content whose headers alone push the raw score far beyond the
normalization cap: 30 header lines each containing all four query
words. -/
def exClampContent : String :=
  String.mk ((List.replicate 30 "# aaa bbb ccc ddd\n").flatMap String.toList)

/-- The clamp-counterexample document whose title contains the full
query. -/
def exClampPlus : KnowledgeDocument ℚ :=
  { id := "doc", title := "gamma aaa bbb ccc ddd", content := exClampContent,
    tags := [], source := "x.md", relevance := 1 / 2 }

/-- The clamp-counterexample document identical to `exClampPlus` except
that its title does not contain the query. -/
def exClampMinus : KnowledgeDocument ℚ :=
  { id := "doc", title := "gamma", content := exClampContent, tags := [],
    source := "x.md", relevance := 1 / 2 }

/-- Index over the corpus containing only `exClampPlus`. -/
def exClampIdxP : KnowledgeBaseIndex ℚ :=
  buildKnowledgeBaseIndex zeroOps [exClampPlus] 0

/-- Index over the corpus containing only `exClampMinus`. -/
def exClampIdxM : KnowledgeBaseIndex ℚ :=
  buildKnowledgeBaseIndex zeroOps [exClampMinus] 0

/-- A one-file knowledge-base directory for the `POST`-level witnesses
and the no-searchable-terms counterexample. -/
def exFS : FSView :=
  FSView.dir [("a.md", some "# Alpha\n\nbravo charlie")]

/-- A pair of document entries differing only in the document title (the
one containing the query also in uppercase to exercise lowercasing),
used by the exact-title witness. -/
def exEntryPlus : DocEntry ℚ :=
  { document := { id := "p", title := "All About Zebras",
                   content := "stripes and savannas", tags := [],
                   source := "p.md", relevance := 1 / 2 },
    termFrequency := fun _ => 0,
    tfidfVector := fun _ => 0,
    length := 3,
    topics := [],
    embeddings := [] }

/-- The entry identical to `exEntryPlus` except for the title. -/
def exEntryMinus : DocEntry ℚ :=
  { exEntryPlus with document := { exEntryPlus.document with title := "Horses" } }

/-! General lemmas about the JS collection primitives. -/

lemma mem_jsSetAdd {α : Type} [DecidableEq α] {l : List α} {a x : α} :
    x ∈ jsSetAdd l a ↔ x ∈ l ∨ x = a := by
  unfold jsSetAdd
  split
  · constructor
    · exact fun h => Or.inl h
    · rintro (h | rfl) <;> [exact h; assumption]
  · simp

lemma mem_foldl_jsSetAdd {α : Type} [DecidableEq α] {x : α} :
    ∀ {l init : List α}, x ∈ l.foldl jsSetAdd init ↔ x ∈ init ∨ x ∈ l := by
  intro l
  induction l with
  | nil => simp
  | cons a t ih =>
    intro init
    simp only [List.foldl_cons, ih, mem_jsSetAdd, List.mem_cons]
    tauto

lemma mem_dedupFirst {α : Type} [DecidableEq α] {x : α} {l : List α} :
    x ∈ dedupFirst l ↔ x ∈ l := by
  unfold dedupFirst; simp [mem_foldl_jsSetAdd]

lemma foldl_jsSetAdd_of_nodup {α : Type} [DecidableEq α] :
    ∀ (l acc : List α), (acc ++ l).Nodup → l.foldl jsSetAdd acc = acc ++ l := by
  intro l
  induction l with
  | nil => simp
  | cons a t ih =>
    intro acc h
    have ha : a ∉ acc := by
      intro hmem
      exact (List.disjoint_of_nodup_append h) hmem (List.mem_cons_self a t)
    have : jsSetAdd acc a = acc ++ [a] := by simp [jsSetAdd, ha]
    rw [List.foldl_cons, this, ih (acc ++ [a]) (by simpa using h)]
    simp

lemma dedupFirst_eq_self {α : Type} [DecidableEq α] {l : List α}
    (h : l.Nodup) : dedupFirst l = l := by
  simpa using foldl_jsSetAdd_of_nodup l [] (by simpa using h)

lemma lookup_mem {α : Type} :
    ∀ {l : List (String × α)} {k : String} {v : α},
      l.lookup k = some v → (k, v) ∈ l := by
  intro l
  induction l with
  | nil => intro k v h; simp [List.lookup] at h
  | cons p t ih =>
    intro k v h
    rw [List.lookup] at h
    cases hk : (k == p.1) with
    | true =>
      rw [hk] at h
      obtain rfl : p.2 = v := by simpa using h
      have hkp : k = p.1 := by simpa using hk
      have : (k, p.2) = p := by rw [hkp]
      rw [this]
      exact List.mem_cons_self _ _
    | false =>
      rw [hk] at h
      exact List.mem_cons_of_mem _ (ih h)

lemma mem_upsert {α : Type} :
    ∀ {l : List (String × α)} {k : String} {v : α} {pr : String × α},
      pr ∈ upsert l k v → pr ∈ l ∨ pr = (k, v) := by
  intro l
  induction l with
  | nil => intro k v pr h; simp [upsert] at h; simp [h]
  | cons p t ih =>
    intro k v pr h
    rw [upsert] at h
    split at h
    · rcases List.mem_cons.1 h with h1 | h1
      · right; rename_i heq; rw [h1, heq]
      · left; exact List.mem_cons_of_mem _ h1
    · rcases List.mem_cons.1 h with h1 | h1
      · left; simp [h1]
      · rcases ih h1 with h2 | h2
        · left; exact List.mem_cons_of_mem _ h2
        · right; exact h2

lemma mem_of_mem_jsSlice {α : Type} {l : List α} {m : ℤ} {x : α}
    (h : x ∈ jsSlice l m) : x ∈ l := by
  unfold jsSlice at h
  split at h <;> exact (List.take_sublist _ _).subset h

lemma pairwise_jsSlice {α : Type} {R : α → α → Prop} {l : List α} {m : ℤ}
    (h : l.Pairwise R) : (jsSlice l m).Pairwise R := by
  unfold jsSlice
  split <;> exact List.Pairwise.sublist (List.take_sublist _ _) h

/-! Claim C1: behaviour of a failed rebuild with a previous snapshot. -/

/-- C1 counterexample: with a stale populated snapshot cached and the
document directory missing, `loadKnowledgeBaseDocuments` replaces the
cached snapshot by a fresh empty index (totalDocuments 0, against 1
before) and returns the empty document list, rather than leaving the
previous snapshot in place; no rebuild error reaches the caller (the
caller then sees the generic empty-corpus 503 of `POST`). -/
theorem c1_failed_rebuild_counterexample :
    loadKnowledgeBaseDocuments zeroOps (some exCacheIdx) CACHE_TTL
        FSView.dirMissing
      = (some (createEmptyIndex CACHE_TTL), [])
    ∧ exCacheIdx.totalDocuments = 1
    ∧ (createEmptyIndex CACHE_TTL : KnowledgeBaseIndex ℚ).totalDocuments = 0
    ∧ (some (createEmptyIndex CACHE_TTL) : Option (KnowledgeBaseIndex ℚ))
        ≠ some exCacheIdx := by
  refine ⟨rfl, rfl, rfl, fun h => ?_⟩
  have h0 : (createEmptyIndex CACHE_TTL : KnowledgeBaseIndex ℚ).totalDocuments
      = exCacheIdx.totalDocuments := by rw [Option.some_inj.1 h]
  simp [createEmptyIndex] at h0
  exact absurd h0.symm (by decide)

/-- C1 amended: when the cached snapshot is expired (or absent) and the
document source is missing or unreadable, the rebuild does not preserve
the previous snapshot: the cache is overwritten with a fresh empty index
built at the current time, and the caller receives an empty document
list (no error value). -/
theorem c1_failed_rebuild_amended {K : Type} [LinearOrderedField K]
    (ops : RealOps K) (cache : Option (KnowledgeBaseIndex K))
    (idx : KnowledgeBaseIndex K) (now : ℕ) (fs : FSView)
    (hc : cache = some idx) (hstale : idx.lastIndexed + CACHE_TTL ≤ now)
    (hfs : fs = FSView.dirMissing ∨ fs = FSView.dirUnreadable) :
    loadKnowledgeBaseDocuments ops cache now fs
      = (some (createEmptyIndex now), []) := by
  subst hc
  have hfresh : ¬ (now - idx.lastIndexed < CACHE_TTL) := by omega
  rcases hfs with rfl | rfl <;>
    simp [loadKnowledgeBaseDocuments, loadRebuild, hfresh]

/-- C1 amended, witness at a concrete expired cache. -/
theorem c1_failed_rebuild_amended_witness :
    exCacheIdx.lastIndexed + CACHE_TTL ≤ CACHE_TTL
    ∧ loadKnowledgeBaseDocuments zeroOps (some exCacheIdx) CACHE_TTL
        FSView.dirMissing
      = (some (createEmptyIndex CACHE_TTL), []) :=
  ⟨by decide,
   c1_failed_rebuild_amended zeroOps (some exCacheIdx) exCacheIdx CACHE_TTL
     FSView.dirMissing rfl (by decide) (Or.inl rfl)⟩

/-! Claim C2: empty corpus handling. -/

/-- C2: for every request with a valid query (trimmed length 2 to 500),
when the loaded corpus is empty the handler returns the structured
response `{results: [], totalDocuments: 0, success: false}` with the
distinguishing error string and HTTP 503, rather than throwing: the
handler is a total function into responses. -/
theorem c2_empty_corpus {K : Type} [LinearOrderedField K] [FloorRing K]
    (ops : RealOps K) (cache : Option (KnowledgeBaseIndex K)) (now : ℕ)
    (fs : FSView) (body : RequestBody)
    (hlen2 : 2 ≤ (strTrim body.query).length)
    (hlen500 : (strTrim body.query).length ≤ 500)
    (hempty : (loadKnowledgeBaseDocuments ops cache now fs).2 = []) :
    (POST ops cache now fs body).1
      = ⟨[], 0, false, some "No documents available in knowledge base", 503⟩ := by
  unfold POST postValidated
  rw [if_neg (by omega), if_neg (by omega)]
  simp [hempty]

/-- C2 witness: a concrete valid query against a missing knowledge-base
directory. -/
theorem c2_empty_corpus_witness :
    2 ≤ (strTrim "hello").length ∧ (strTrim "hello").length ≤ 500
    ∧ (loadKnowledgeBaseDocuments zeroOps none 0 FSView.dirMissing).2 = []
    ∧ (POST zeroOps none 0 FSView.dirMissing ⟨"hello", none⟩).1
      = ⟨[], 0, false, some "No documents available in knowledge base", 503⟩ :=
  ⟨by decide, by decide, rfl,
   c2_empty_corpus zeroOps none 0 FSView.dirMissing ⟨"hello", none⟩
     (by decide) (by decide) rfl⟩

/-! Claim C6: query length validation. -/

/-- C6: a query whose trimmed length is below 2 is rejected with the
400 `InvalidQuery` response (and no results); one whose trimmed length
exceeds 500 likewise; and a query of trimmed length 2 to 500 passes
validation, the handler proceeding with exactly the trimmed query
(neither truncated nor padded). -/
theorem c6_query_validation {K : Type} [LinearOrderedField K] [FloorRing K]
    (ops : RealOps K) (cache : Option (KnowledgeBaseIndex K)) (now : ℕ)
    (fs : FSView) (body : RequestBody) :
    ((strTrim body.query).length < 2 →
      (POST ops cache now fs body).1
        = ⟨[], 0, false, some "Query must be at least 2 characters long", 400⟩)
    ∧ (500 < (strTrim body.query).length →
      (POST ops cache now fs body).1
        = ⟨[], 0, false, some "Query is too long (max 500 characters)", 400⟩)
    ∧ (2 ≤ (strTrim body.query).length → (strTrim body.query).length ≤ 500 →
      POST ops cache now fs body
        = postValidated ops cache now fs (strTrim body.query)
            (effectiveMaxResults body.maxResults)) := by
  refine ⟨fun h => ?_, fun h => ?_, fun h1 h2 => ?_⟩
  · unfold POST
    rw [if_pos h]
  · unfold POST
    rw [if_neg (by omega), if_pos h]
  · unfold POST
    rw [if_neg (by omega), if_neg (by omega)]

set_option maxRecDepth 40000 in
/-- C6 witness: the three validation outcomes at concrete queries
(length 1 rejected short, length 501 rejected long, length 5 passed
through trimmed and unchanged). -/
theorem c6_query_validation_witness :
    ((strTrim "x").length < 2
      ∧ (POST zeroOps none 0 FSView.dirMissing ⟨"x", none⟩).1
        = ⟨[], 0, false, some "Query must be at least 2 characters long", 400⟩)
    ∧ (500 < (strTrim (String.mk (List.replicate 501 'a'))).length
      ∧ (POST zeroOps none 0 FSView.dirMissing
            ⟨String.mk (List.replicate 501 'a'), none⟩).1
        = ⟨[], 0, false, some "Query is too long (max 500 characters)", 400⟩)
    ∧ (2 ≤ (strTrim " hello ").length ∧ (strTrim " hello ").length ≤ 500
      ∧ POST zeroOps none 0 FSView.dirMissing ⟨" hello ", none⟩
        = postValidated zeroOps none 0 FSView.dirMissing (strTrim " hello ")
            (effectiveMaxResults none)) :=
  ⟨⟨by decide,
    (c6_query_validation zeroOps none 0 FSView.dirMissing ⟨"x", none⟩).1
      (by decide)⟩,
   ⟨by decide,
    (c6_query_validation zeroOps none 0 FSView.dirMissing
        ⟨String.mk (List.replicate 501 'a'), none⟩).2.1 (by decide)⟩,
   ⟨by decide, by decide,
    (c6_query_validation zeroOps none 0 FSView.dirMissing
        ⟨" hello ", none⟩).2.2 (by decide) (by decide)⟩⟩

/-! Claim C10: the effective result-count bound. -/

/-- C10 counterexample: `maxResults = "0"` parses to `0`, which is falsy
in JS, so the bound falls back to the default 5 — not
`min(0, 10) = 0` as the claim's formula requires. -/
theorem c10_bound_counterexample :
    parseIntJS "0" = some 0
    ∧ effectiveMaxResults (some "0") = 5
    ∧ min (0 : ℤ) 10 = 0
    ∧ (5 : ℤ) ≠ 0 := by
  refine ⟨rfl, rfl, by decide, by decide⟩

/-- C10 amended: the effective bound is `min(parsed, 10)` for every
parse result that is a nonzero integer; a missing/non-numeric
`maxResults` (parse NaN) and a parse result of `0` (falsy) both fall
back to the default 5; and the bound never exceeds 10. -/
theorem c10_bound_amended (raw : Option String) :
    (∀ n : ℤ, raw.bind parseIntJS = some n → n ≠ 0 →
      effectiveMaxResults raw = min n 10)
    ∧ (raw.bind parseIntJS = none → effectiveMaxResults raw = 5)
    ∧ (raw.bind parseIntJS = some 0 → effectiveMaxResults raw = 5)
    ∧ effectiveMaxResults raw ≤ 10 := by
  unfold effectiveMaxResults
  refine ⟨fun n hn hn0 => ?_, fun h => ?_, fun h => ?_, ?_⟩
  · rw [hn]
    simp [hn0]
  · rw [h]
    decide
  · rw [h]
    decide
  · cases h : raw.bind parseIntJS with
    | none => decide
    | some n =>
      by_cases hz : n = 0
      · simp [hz]
      · simp only [if_neg hz]
        exact min_le_right _ _

/-- C10 amended, witness: parsed 7 gives bound 7, parsed 25 clamps to
10, missing defaults to 5, and `"0"` defaults to 5. -/
theorem c10_bound_amended_witness :
    ((some "7").bind parseIntJS = some 7 ∧ effectiveMaxResults (some "7") = min 7 10)
    ∧ ((some "25").bind parseIntJS = some 25
        ∧ effectiveMaxResults (some "25") = min 25 10)
    ∧ ((none : Option String).bind parseIntJS = none
        ∧ effectiveMaxResults none = 5)
    ∧ effectiveMaxResults (some "0") = 5 :=
  ⟨⟨by decide, (c10_bound_amended (some "7")).1 7 (by decide) (by decide)⟩,
   ⟨by decide, (c10_bound_amended (some "25")).1 25 (by decide) (by decide)⟩,
   ⟨by decide, (c10_bound_amended none).2.1 (by decide)⟩,
   (c10_bound_amended (some "0")).2.2.1 (by decide)⟩

/-! Lemmas about the search pipeline: sortedness, membership, bounds. -/

lemma round_mono_of_le {K : Type} [LinearOrderedField K] [FloorRing K]
    {x y : K} (h : x ≤ y) : round x ≤ round y := by
  rw [round_eq, round_eq]
  exact Int.floor_le_floor (by linarith)

lemma byScoreDesc_trans {K : Type} :
    ∀ a b c : SearchResult K, byScoreDesc a b = true → byScoreDesc b c = true →
      byScoreDesc a c = true := by
  intro a b c
  simp only [byScoreDesc, decide_eq_true_eq]
  omega

lemma byScoreDesc_total {K : Type} :
    ∀ a b : SearchResult K, (byScoreDesc a b || byScoreDesc b a) = true := by
  intro a b
  simp only [byScoreDesc, Bool.or_eq_true, decide_eq_true_eq]
  omega

lemma pairwise_sorted_output {K : Type} [LinearOrderedField K] [FloorRing K]
    (ops : RealOps K) (idx : KnowledgeBaseIndex K) (query : String)
    (maxResults : ℤ) :
    (searchDocumentsIndexed ops idx query maxResults).Pairwise
      fun a b => b.searchScore ≤ a.searchScore := by
  unfold searchDocumentsIndexed
  refine pairwise_jsSlice ?_
  refine (List.sorted_mergeSort byScoreDesc_trans byScoreDesc_total _).imp ?_
  intro a b h
  simpa [byScoreDesc] using h

lemma mem_searchScored_inv {K : Type} [LinearOrderedField K] [FloorRing K]
    {ops : RealOps K} {idx : KnowledgeBaseIndex K} {query : String}
    {r : SearchResult K} (h : r ∈ searchScored ops idx query) :
    ∃ s : K, 8 < s ∧ r.searchScore = normalizedScore s := by
  simp only [searchScored] at h
  split at h
  · simp at h
  · unfold scoredCandidates at h
    obtain ⟨docId, _, hf⟩ := List.mem_filterMap.1 h
    obtain ⟨entry, _, hif⟩ := Option.bind_eq_some.1 hf
    dsimp only at hif
    split at hif
    · rename_i hs
      obtain rfl : (⟨entry.document, normalizedScore _⟩ : SearchResult K) = r :=
        Option.some_inj.1 hif
      exact ⟨_, hs, rfl⟩
    · exact absurd hif (by simp)

lemma mem_output_mem_searchScored {K : Type} [LinearOrderedField K]
    [FloorRing K] {ops : RealOps K} {idx : KnowledgeBaseIndex K}
    {query : String} {maxResults : ℤ} {r : SearchResult K}
    (h : r ∈ searchDocumentsIndexed ops idx query maxResults) :
    r ∈ searchScored ops idx query := by
  unfold searchDocumentsIndexed at h
  exact (List.mergeSort_perm _ _).mem_iff.1 (mem_of_mem_jsSlice h)

lemma normalizedScore_bounds {K : Type} [LinearOrderedField K] [FloorRing K]
    {s : K} (h : (8 : K) < s) :
    0 ≤ normalizedScore s ∧ normalizedScore s ≤ 100 := by
  unfold normalizedScore
  refine ⟨le_min ?_ (by norm_num), min_le_right _ _⟩
  have h0 : (0 : K) ≤ s / 2000 * 100 := by positivity
  have := round_mono_of_le h0
  rwa [round_zero] at this

/-! Claim C3: score bounds and ordering of the result list. -/

/-- C3: for every interpretation of log/sqrt, every index, every query
and every result bound, each returned `searchScore` lies in `[0, 100]`,
and the returned list is sorted non-increasing by `searchScore`. -/
theorem c3_score_bounds_and_sorted {K : Type} [LinearOrderedField K]
    [FloorRing K] (ops : RealOps K) (idx : KnowledgeBaseIndex K)
    (query : String) (maxResults : ℤ) :
    (∀ r ∈ searchDocumentsIndexed ops idx query maxResults,
      0 ≤ r.searchScore ∧ r.searchScore ≤ 100)
    ∧ (searchDocumentsIndexed ops idx query maxResults).Pairwise
        (fun a b => b.searchScore ≤ a.searchScore) := by
  refine ⟨fun r hr => ?_, pairwise_sorted_output ops idx query maxResults⟩
  obtain ⟨s, hs, hr2⟩ := mem_searchScored_inv (mem_output_mem_searchScored hr)
  rw [hr2]
  exact normalizedScore_bounds hs

set_option maxRecDepth 1000000 in
unseal Rat.add Rat.mul Rat.inv Rat.sub List.merge List.mergeSort in
/-- C3 witness: on a concrete three-document corpus the top result is in
range and the returned two-element list is sorted. -/
theorem c3_score_bounds_and_sorted_witness :
    (⟨exDocA, 12⟩ : SearchResult ℚ) ∈ searchDocumentsIndexed zeroOps exIdx
      "alpha" 2
    ∧ (0 ≤ (⟨exDocA, 12⟩ : SearchResult ℚ).searchScore
       ∧ (⟨exDocA, 12⟩ : SearchResult ℚ).searchScore ≤ 100)
    ∧ (searchDocumentsIndexed zeroOps exIdx "alpha" 2).Pairwise
        (fun a b => b.searchScore ≤ a.searchScore) :=
  ⟨by decide,
   (c3_score_bounds_and_sorted zeroOps exIdx "alpha" 2).1 _ (by decide),
   (c3_score_bounds_and_sorted zeroOps exIdx "alpha" 2).2⟩

/-! Claim C7: truncation happens after full scoring. -/

lemma jsSlice_of_nonneg {α : Type} {l : List α} {m : ℤ} (h : 0 ≤ m) :
    jsSlice l m = l.take m.toNat := by
  unfold jsSlice
  rw [if_pos h]

/-- C7: whenever more than `maxResults` candidates pass the score
threshold (`maxResults ≥ 0`), the returned list has exactly `maxResults`
elements, and they dominate the full scored candidate list: every scored
candidate left out scores no higher than every returned result —
truncation happens after the full scoring-and-sorting pass. -/
theorem c7_truncation_after_scoring {K : Type} [LinearOrderedField K]
    [FloorRing K] (ops : RealOps K) (idx : KnowledgeBaseIndex K)
    (query : String) (maxResults : ℤ) (h0 : 0 ≤ maxResults)
    (hmore : maxResults < ((searchScored ops idx query).length : ℤ)) :
    ((searchDocumentsIndexed ops idx query maxResults).length : ℤ) = maxResults
    ∧ ∀ y ∈ searchScored ops idx query,
        y ∉ searchDocumentsIndexed ops idx query maxResults →
        ∀ x ∈ searchDocumentsIndexed ops idx query maxResults,
          y.searchScore ≤ x.searchScore := by
  have hsorted := @List.sorted_mergeSort (SearchResult K) byScoreDesc
    byScoreDesc_trans byScoreDesc_total (searchScored ops idx query)
  have hlen : ((searchScored ops idx query).mergeSort byScoreDesc).length
      = (searchScored ops idx query).length := List.length_mergeSort _
  constructor
  · unfold searchDocumentsIndexed
    rw [jsSlice_of_nonneg h0, List.length_take, hlen]
    omega
  · intro y hy hynot x hx
    have hyx : y ∈ (searchScored ops idx query).mergeSort byScoreDesc :=
      (List.mergeSort_perm _ _).mem_iff.2 hy
    rw [searchDocumentsIndexed, jsSlice_of_nonneg h0] at hynot hx
    set sorted := (searchScored ops idx query).mergeSort byScoreDesc with hdef
    have hsplit : sorted.take maxResults.toNat ++ sorted.drop maxResults.toNat
        = sorted := List.take_append_drop _ _
    have hydrop : y ∈ sorted.drop maxResults.toNat := by
      have : y ∈ sorted.take maxResults.toNat ++ sorted.drop maxResults.toNat := by
        rw [hsplit]; exact hyx
      rcases List.mem_append.1 this with h | h
      · exact absurd h hynot
      · exact h
    have hpw : (sorted.take maxResults.toNat
        ++ sorted.drop maxResults.toNat).Pairwise
          (fun a b => byScoreDesc a b = true) := by
      rw [hsplit]; exact hsorted
    have := (List.pairwise_append.1 hpw).2.2 x hx y hydrop
    simpa [byScoreDesc] using this

set_option maxRecDepth 1000000 in
unseal Rat.add Rat.mul Rat.inv Rat.sub List.merge List.mergeSort in
/-- C7 witness: three scored candidates, bound 2 — exactly two results,
and the left-out candidate (score 6) scores no higher than the returned
top result (score 12). -/
theorem c7_truncation_after_scoring_witness :
    (0 : ℤ) ≤ 2 ∧ (2 : ℤ) < ((searchScored zeroOps exIdx "alpha").length : ℤ)
    ∧ ((searchDocumentsIndexed zeroOps exIdx "alpha" 2).length : ℤ) = 2
    ∧ (⟨exDocC, 6⟩ : SearchResult ℚ) ∈ searchScored zeroOps exIdx "alpha"
    ∧ (⟨exDocC, 6⟩ : SearchResult ℚ) ∉ searchDocumentsIndexed zeroOps exIdx
        "alpha" 2
    ∧ (⟨exDocA, 12⟩ : SearchResult ℚ) ∈ searchDocumentsIndexed zeroOps exIdx
        "alpha" 2
    ∧ ((⟨exDocC, 6⟩ : SearchResult ℚ).searchScore
        ≤ (⟨exDocA, 12⟩ : SearchResult ℚ).searchScore) :=
  ⟨by decide, by decide,
   (c7_truncation_after_scoring zeroOps exIdx "alpha" 2 (by decide)
      (by decide)).1,
   by decide, by decide, by decide,
   (c7_truncation_after_scoring zeroOps exIdx "alpha" 2 (by decide)
      (by decide)).2 _ (by decide) (by decide) _ (by decide)⟩

/-! Claim C9: queries with no searchable terms. -/

lemma loadRebuild_fst_some {K : Type} [LinearOrderedField K]
    (ops : RealOps K) (now : ℕ) (fs : FSView) :
    ∃ idx, (loadRebuild ops now fs).1 = some idx := by
  cases fs with
  | dirMissing => exact ⟨_, rfl⟩
  | dirUnreadable => exact ⟨_, rfl⟩
  | dir files =>
    simp only [loadRebuild]
    split <;> exact ⟨_, rfl⟩

lemma load_fst_some {K : Type} [LinearOrderedField K] (ops : RealOps K)
    (cache : Option (KnowledgeBaseIndex K)) (now : ℕ) (fs : FSView) :
    ∃ idx, (loadKnowledgeBaseDocuments ops cache now fs).1 = some idx := by
  cases cache with
  | none => exact loadRebuild_fst_some ops now fs
  | some idx =>
    dsimp only [loadKnowledgeBaseDocuments]
    by_cases hfresh : now - idx.lastIndexed < CACHE_TTL
    · exact ⟨idx, by rw [if_pos hfresh]⟩
    · obtain ⟨j, hj⟩ := loadRebuild_fst_some ops now fs
      exact ⟨j, by rw [if_neg hfresh]; exact hj⟩

lemma jsSlice_nil {α : Type} (m : ℤ) : jsSlice ([] : List α) m = [] := by
  unfold jsSlice
  split <;> simp

lemma searchDocumentsIndexed_of_no_tokens {K : Type} [LinearOrderedField K]
    [FloorRing K] (ops : RealOps K) (idx : KnowledgeBaseIndex K)
    (query : String) (maxResults : ℤ)
    (h : tokenizeAndNormalize query = []) :
    searchDocumentsIndexed ops idx query maxResults = [] := by
  unfold searchDocumentsIndexed searchScored
  rw [h]
  simp [List.mergeSort_nil, jsSlice_nil]

/-- C9 amended: a valid query that reduces to an empty token list is
answered without crash by the plain empty-result success response; the
response carries no distinguishing flag — it equals the generic
"no matches" success response (same `results: []`, same
`totalDocuments`, `success: true`, HTTP 200). -/
theorem c9_no_searchable_terms_amended {K : Type} [LinearOrderedField K]
    [FloorRing K] (ops : RealOps K) (cache : Option (KnowledgeBaseIndex K))
    (now : ℕ) (fs : FSView) (body : RequestBody)
    (hlen2 : 2 ≤ (strTrim body.query).length)
    (hlen500 : (strTrim body.query).length ≤ 500)
    (htok : tokenizeAndNormalize (strTrim body.query) = [])
    (hne : (loadKnowledgeBaseDocuments ops cache now fs).2 ≠ []) :
    (POST ops cache now fs body).1
      = ⟨[], (loadKnowledgeBaseDocuments ops cache now fs).2.length, true,
          none, 200⟩ := by
  obtain ⟨idx, hidx⟩ := load_fst_some ops cache now fs
  unfold POST
  rw [if_neg (by omega), if_neg (by omega)]
  unfold postValidated
  simp only [hidx]
  rw [if_neg (by simpa [List.isEmpty_iff] using hne)]
  simp [searchDocuments, searchDocumentsIndexed_of_no_tokens _ _ _ _ htok]

set_option maxRecDepth 1000000 in
unseal Rat.add Rat.mul Rat.inv Rat.sub List.merge List.mergeSort in
/-- C9 counterexample to distinguishability: the all-stop-word query
`"the is a"` and the term-bearing query `"qqqq zzzz"` that merely matches
nothing receive byte-for-byte identical responses on a one-document
corpus — there is no `NoSearchableTerms` flag a caller could observe. -/
theorem c9_no_searchable_terms_counterexample :
    tokenizeAndNormalize (strTrim "the is a") = []
    ∧ tokenizeAndNormalize (strTrim "qqqq zzzz") = ["qqqq", "zzzz"]
    ∧ (POST zeroOps none 0 exFS ⟨"the is a", none⟩).1
      = (POST zeroOps none 0 exFS ⟨"qqqq zzzz", none⟩).1
    ∧ (POST zeroOps none 0 exFS ⟨"the is a", none⟩).1
      = ⟨[], 1, true, none, 200⟩ := by
  refine ⟨by decide, by decide, ?_, ?_⟩ <;> decide

set_option maxRecDepth 1000000 in
unseal Rat.add Rat.mul Rat.inv Rat.sub List.merge List.mergeSort in
/-- C9 amended, witness at the concrete stop-word query. -/
theorem c9_no_searchable_terms_amended_witness :
    2 ≤ (strTrim "the is a").length ∧ (strTrim "the is a").length ≤ 500
    ∧ tokenizeAndNormalize (strTrim "the is a") = []
    ∧ (loadKnowledgeBaseDocuments zeroOps none 0 exFS).2 ≠ []
    ∧ (POST zeroOps none 0 exFS ⟨"the is a", none⟩).1
      = ⟨[], (loadKnowledgeBaseDocuments zeroOps none 0 exFS).2.length, true,
          none, 200⟩ :=
  ⟨by decide, by decide, by decide, by decide,
   c9_no_searchable_terms_amended zeroOps none 0 exFS ⟨"the is a", none⟩
     (by decide) (by decide) (by decide) (by decide)⟩

/-! Characterization of the index builder's accumulation loops. -/

/-- Net effect on one inverted-index entry of scanning `k` occurrences of
a term in the document `docId`. -/
def bumpInv (docId : String) (k : ℕ) (e : Option (List String × ℕ)) :
    Option (List String × ℕ) :=
  if k = 0 then e
  else some (match e with
    | none => ([docId], k)
    | some p => (jsSetAdd p.1 docId, p.2 + k))

lemma jsSetAdd_idem {α : Type} [DecidableEq α] (l : List α) (a : α) :
    jsSetAdd (jsSetAdd l a) a = jsSetAdd l a := by
  have h : a ∈ jsSetAdd l a := mem_jsSetAdd.2 (Or.inr rfl)
  show (if a ∈ jsSetAdd l a then jsSetAdd l a else jsSetAdd l a ++ [a])
    = jsSetAdd l a
  rw [if_pos h]

lemma bumpInv_succ (docId : String) (k : ℕ)
    (e : Option (List String × ℕ)) :
    bumpInv docId k (bumpInv docId 1 e) = bumpInv docId (k + 1) e := by
  cases e with
  | none =>
    cases k with
    | zero => simp [bumpInv]
    | succ k =>
      show some (jsSetAdd [docId] docId, 1 + (k + 1))
        = some ([docId], k + 1 + 1)
      have : jsSetAdd [docId] docId = [docId] := by simp [jsSetAdd]
      rw [this]
      simp only [Prod.mk.injEq, Option.some_inj]
      exact ⟨by first | rfl | trivial, by omega⟩
  | some p =>
    cases k with
    | zero => simp [bumpInv]
    | succ k =>
      show some (jsSetAdd (jsSetAdd p.1 docId) docId, p.2 + 1 + (k + 1))
        = some (jsSetAdd p.1 docId, p.2 + (k + 1 + 1))
      rw [jsSetAdd_idem]
      simp only [Prod.mk.injEq, Option.some_inj]
      exact ⟨by first | rfl | trivial, by omega⟩

lemma scan_inv (docId : String) :
    ∀ (words : List String) (init : ScanSt) (t : String),
      ((words.foldl (scanWord docId) init).inv) t
        = bumpInv docId (words.count t) (init.inv t) := by
  intro words
  induction words with
  | nil => intro init t; simp [bumpInv]
  | cons w ws ih =>
    intro init t
    rw [List.foldl_cons, ih]
    by_cases hw : t = w
    · subst hw
      have hstep : (scanWord docId init t).inv t = bumpInv docId 1 (init.inv t) := by
        simp only [scanWord, if_pos rfl, bumpInv, one_ne_zero, if_neg]
        cases init.inv t <;> rfl
      rw [hstep, bumpInv_succ]
      congr 1
      rw [List.count_cons]
      simp
    · have hstep : (scanWord docId init w).inv t = init.inv t := by
        simp [scanWord, hw]
      rw [hstep]
      congr 1
      have hwt : (w == t) = false := by
        simp only [beq_eq_false_iff_ne, ne_eq]
        exact fun h => hw h.symm
      rw [List.count_cons, hwt]
      simp

lemma scan_tf (docId : String) :
    ∀ (words : List String) (init : ScanSt) (t : String),
      ((words.foldl (scanWord docId) init).tf) t
        = init.tf t + words.count t := by
  intro words
  induction words with
  | nil => intro init t; simp
  | cons w ws ih =>
    intro init t
    rw [List.foldl_cons, ih]
    by_cases hw : t = w
    · subst hw
      simp only [scanWord, if_pos rfl]
      rw [List.count_cons]
      simp
      omega
    · simp only [scanWord, if_neg hw]
      have hwt : (w == t) = false := by
        simp only [beq_eq_false_iff_ne, ne_eq]
        exact fun h => hw h.symm
      rw [List.count_cons, hwt]
      simp

lemma build_inv {K : Type} [LinearOrderedField K] :
    ∀ (docs : List (KnowledgeDocument K)) (init : BuildSt K) (t : String),
      ((docs.foldl processDoc init).inv) t
        = docs.foldl
            (fun e d => bumpInv d.id ((docTokens d).count t) e) (init.inv t) := by
  intro docs
  induction docs with
  | nil => intro init t; rfl
  | cons d ds ih =>
    intro init t
    rw [List.foldl_cons, List.foldl_cons, ih]
    congr 1
    exact scan_inv d.id (docTokens d) _ t

/-- The documents containing a term (by tokenization), in corpus order. -/
def containingDocs {K : Type} (t : String)
    (docs : List (KnowledgeDocument K)) : List (KnowledgeDocument K) :=
  docs.filter fun d => decide (t ∈ docTokens d)

lemma containingDocs_cons_of_mem {K : Type} {t : String}
    {d : KnowledgeDocument K} {rest : List (KnowledgeDocument K)}
    (h : t ∈ docTokens d) :
    containingDocs t (d :: rest) = d :: containingDocs t rest := by
  unfold containingDocs
  rw [List.filter_cons_of_pos (by simpa using h)]

lemma containingDocs_cons_of_not_mem {K : Type} {t : String}
    {d : KnowledgeDocument K} {rest : List (KnowledgeDocument K)}
    (h : t ∉ docTokens d) :
    containingDocs t (d :: rest) = containingDocs t rest := by
  unfold containingDocs
  rw [List.filter_cons_of_neg (by simpa using h)]

lemma bumpFold_some {K : Type} (t : String) :
    ∀ (docs : List (KnowledgeDocument K)) (ds : List String) (f : ℕ),
      docs.foldl (fun e d => bumpInv d.id ((docTokens d).count t) e)
          (some (ds, f))
        = some (((containingDocs t docs).map fun d => d.id).foldl jsSetAdd ds,
            f + ((docs.map fun d => (docTokens d).count t).sum)) := by
  intro docs
  induction docs with
  | nil => intro ds f; simp [containingDocs]
  | cons d rest ih =>
    intro ds f
    rw [List.foldl_cons]
    by_cases hc : (docTokens d).count t = 0
    · have hmem : t ∉ docTokens d := by
        rw [← List.count_pos_iff]
        omega
      rw [show bumpInv d.id ((docTokens d).count t) (some (ds, f))
          = some (ds, f) by simp [bumpInv, hc]]
      rw [ih, containingDocs_cons_of_not_mem hmem]
      rw [List.map_cons, List.sum_cons, hc]
      simp
    · have hmem : t ∈ docTokens d := by
        rw [← List.count_pos_iff]
        omega
      rw [show bumpInv d.id ((docTokens d).count t) (some (ds, f))
          = some (jsSetAdd ds d.id, f + (docTokens d).count t) by
        simp [bumpInv, hc]]
      rw [ih, containingDocs_cons_of_mem hmem]
      simp only [List.map_cons, List.sum_cons, List.foldl_cons,
        Option.some_inj, Prod.mk.injEq]
      exact ⟨trivial, by omega⟩

lemma bumpFold_none_nil {K : Type} (t : String)
    (docs : List (KnowledgeDocument K))
    (h : containingDocs t docs = []) :
    docs.foldl (fun e d => bumpInv d.id ((docTokens d).count t) e) none
      = none := by
  induction docs with
  | nil => rfl
  | cons d rest ih =>
    by_cases hmem : t ∈ docTokens d
    · rw [containingDocs_cons_of_mem hmem] at h
      exact absurd h (by simp)
    · rw [containingDocs_cons_of_not_mem hmem] at h
      have hc : (docTokens d).count t = 0 := by
        rw [← List.count_pos_iff] at hmem
        omega
      rw [List.foldl_cons,
        show bumpInv d.id ((docTokens d).count t) none = none by
          simp [bumpInv, hc]]
      exact ih h

lemma bumpFold_none_cons {K : Type} (t : String)
    (docs : List (KnowledgeDocument K))
    (h : containingDocs t docs ≠ []) :
    docs.foldl (fun e d => bumpInv d.id ((docTokens d).count t) e) none
      = some (dedupFirst ((containingDocs t docs).map fun d => d.id),
          ((docs.map fun d => (docTokens d).count t).sum)) := by
  induction docs with
  | nil => exact absurd rfl h
  | cons d rest ih =>
    rw [List.foldl_cons]
    by_cases hmem : t ∈ docTokens d
    · have hc : (docTokens d).count t ≠ 0 := by
        rw [← List.count_pos_iff] at hmem
        omega
      rw [show bumpInv d.id ((docTokens d).count t) none
          = some ([d.id], (docTokens d).count t) by simp [bumpInv, hc]]
      rw [bumpFold_some, containingDocs_cons_of_mem hmem]
      have hded : dedupFirst (d.id :: (containingDocs t rest).map
          (fun d => d.id))
          = ((containingDocs t rest).map fun d => d.id).foldl jsSetAdd
              [d.id] := by
        unfold dedupFirst
        rw [List.foldl_cons]
        rfl
      simp only [List.map_cons, List.sum_cons]
      rw [hded]
    · have hc : (docTokens d).count t = 0 := by
        rw [← List.count_pos_iff] at hmem
        omega
      rw [containingDocs_cons_of_not_mem hmem] at h ⊢
      rw [show bumpInv d.id ((docTokens d).count t) none = none by
          simp [bumpInv, hc]]
      rw [ih h, List.map_cons, List.sum_cons, hc]
      simp

/-- The inverted index of a built snapshot, characterized: a term maps to
an entry iff some document contains it; the entry's id set is the
(first-occurrence deduplicated) list of ids of containing documents, its
frequency the total occurrence count, and its IDF
`log(N / (1 + |id set|))`. -/
lemma inv_of_build_none {K : Type} [LinearOrderedField K] (ops : RealOps K)
    (docs : List (KnowledgeDocument K)) (now : ℕ) (t : String)
    (h : containingDocs t docs = []) :
    (buildKnowledgeBaseIndex ops docs now).invertedIndex t = none := by
  have hst : ((docs.foldl processDoc
      (⟨fun _ => none, [], [], 0⟩ : BuildSt K)).inv) t
      = docs.foldl (fun e d => bumpInv d.id ((docTokens d).count t) e) none :=
    build_inv docs _ t
  simp only [buildKnowledgeBaseIndex]
  rw [hst, bumpFold_none_nil t docs h]
  rfl

lemma inv_of_build_some {K : Type} [LinearOrderedField K] (ops : RealOps K)
    (docs : List (KnowledgeDocument K)) (now : ℕ) (t : String)
    (h : containingDocs t docs ≠ []) :
    (buildKnowledgeBaseIndex ops docs now).invertedIndex t
      = some
          ⟨dedupFirst ((containingDocs t docs).map fun d => d.id),
           ((docs.map fun d => (docTokens d).count t).sum),
           mkIdf ops docs.length
             (dedupFirst ((containingDocs t docs).map fun d => d.id)).length⟩ := by
  have hst : ((docs.foldl processDoc
      (⟨fun _ => none, [], [], 0⟩ : BuildSt K)).inv) t
      = docs.foldl (fun e d => bumpInv d.id ((docTokens d).count t) e) none :=
    build_inv docs _ t
  simp only [buildKnowledgeBaseIndex]
  rw [hst, bumpFold_none_cons t docs h]
  rfl

lemma build_docIdx_mem {K : Type} [LinearOrderedField K] :
    ∀ (docs : List (KnowledgeDocument K)) (init : BuildSt K)
      (pr : String × DocEntry K),
      pr ∈ (docs.foldl processDoc init).docIdx →
      pr ∈ init.docIdx
      ∨ ∃ d ∈ docs, pr.1 = d.id ∧ pr.2.document = d
          ∧ (∀ t, pr.2.termFrequency t = (docTokens d).count t)
          ∧ pr.2.length = (docTokens d).length := by
  intro docs
  induction docs with
  | nil => intro init pr h; exact Or.inl h
  | cons d rest ih =>
    intro init pr h
    rw [List.foldl_cons] at h
    rcases ih _ pr h with h1 | ⟨d2, hd2, hprops⟩
    · have h2 := mem_upsert (l := init.docIdx) (by
        simpa [processDoc] using h1)
      rcases h2 with h3 | h3
      · exact Or.inl h3
      · refine Or.inr ⟨d, List.mem_cons_self d rest, ?_, ?_, ?_, ?_⟩
        · rw [h3]
        · rw [h3]
        · intro t
          rw [h3]
          have hs := scan_tf d.id (docTokens d)
            ⟨fun _ => 0, init.vocab, init.inv⟩ t
          simpa using hs
        · rw [h3]
    · exact Or.inr ⟨d2, List.mem_cons_of_mem d hd2, hprops⟩

/-- Every entry of the built document index belongs to a corpus document
whose token statistics it carries. -/
lemma docIndex_mem {K : Type} [LinearOrderedField K] {ops : RealOps K}
    {docs : List (KnowledgeDocument K)} {now : ℕ}
    {pr : String × DocEntry K}
    (h : pr ∈ (buildKnowledgeBaseIndex ops docs now).documentIndex) :
    ∃ d ∈ docs, pr.1 = d.id ∧ pr.2.document = d
      ∧ (∀ t, pr.2.termFrequency t = (docTokens d).count t)
      ∧ pr.2.length = (docTokens d).length := by
  simp only [buildKnowledgeBaseIndex, List.mem_map] at h
  obtain ⟨pr0, hpr0, rfl⟩ := h
  rcases build_docIdx_mem docs _ pr0 hpr0 with h1 | ⟨d, hd, h2, h3, h4, h5⟩
  · simp at h1
  · exact ⟨d, hd, h2, h3, h4, h5⟩

/-! Claim C4: the IDF table and the TF-IDF vectors of a built index. -/

/-- C4 amended: in the index built over a corpus with pairwise-distinct
document ids, the IDF stored for every vocabulary term `t` is
`log(N / (1 + df))` where `N` is the corpus size and `df` the number of
documents containing `t`; and every document entry's TF-IDF vector value
at a term it contains is `(tf / length) * idf` with the `idf` taken from
the final inverted-index table.  (Without distinct ids, `df` is the
number of distinct ids, see the counterexample.) -/
theorem c4_idf_and_tfidf {K : Type} [LinearOrderedField K] (ops : RealOps K)
    (docs : List (KnowledgeDocument K)) (now : ℕ)
    (hne : docs ≠ []) (hnd : (docs.map fun d => d.id).Nodup) :
    (∀ t e, (buildKnowledgeBaseIndex ops docs now).invertedIndex t = some e →
      e.idf = ops.log ((docs.length : K)
        / (1 + ((containingDocs t docs).length : K))))
    ∧ (∀ id entry,
        (id, entry) ∈ (buildKnowledgeBaseIndex ops docs now).documentIndex →
        ∀ t, 0 < entry.termFrequency t →
          ∃ e, (buildKnowledgeBaseIndex ops docs now).invertedIndex t = some e
            ∧ entry.tfidfVector t
              = ((entry.termFrequency t : K) / (entry.length : K)) * e.idf) := by
  have hsub : ∀ t, ((containingDocs t docs).map fun d => d.id).Sublist
      (docs.map fun d => d.id) :=
    fun t => (List.filter_sublist docs).map fun d => d.id
  have hndc : ∀ t, (((containingDocs t docs).map fun d => d.id)).Nodup :=
    fun t => hnd.sublist (hsub t)
  have hded : ∀ t, dedupFirst ((containingDocs t docs).map fun d => d.id)
      = (containingDocs t docs).map fun d => d.id :=
    fun t => dedupFirst_eq_self (hndc t)
  constructor
  · intro t e h
    by_cases hcon : containingDocs t docs = []
    · rw [inv_of_build_none ops docs now t hcon] at h
      exact absurd h (by simp)
    · rw [inv_of_build_some ops docs now t hcon] at h
      obtain rfl := (Option.some_inj.1 h).symm
      show mkIdf ops docs.length
        (dedupFirst ((containingDocs t docs).map fun d => d.id)).length = _
      rw [hded t, List.length_map]
      rfl
  · intro id entry hmem t htf
    simp only [buildKnowledgeBaseIndex, List.mem_map] at hmem
    obtain ⟨pr, hpr, heq⟩ := hmem
    injection heq with h1 h2
    subst h1
    subst h2
    rcases build_docIdx_mem docs _ pr hpr with h0 | ⟨d, hd, hid, hdoc, htfc, hlen⟩
    · simp at h0
    · have htmem : t ∈ docTokens d := by
        rw [← List.count_pos_iff, ← htfc t]
        exact htf
      have hcon : containingDocs t docs ≠ [] := by
        intro hc
        have : d ∈ containingDocs t docs := by
          unfold containingDocs
          rw [List.mem_filter]
          exact ⟨hd, by simpa using htmem⟩
        rw [hc] at this
        simp at this
      have hfold := bumpFold_none_cons t docs hcon
      have hstinv : ((docs.foldl processDoc
          (⟨fun _ => none, [], [], 0⟩ : BuildSt K)).inv) t
          = some (dedupFirst ((containingDocs t docs).map fun d => d.id),
              ((docs.map fun d => (docTokens d).count t).sum)) := by
        rw [build_inv docs _ t]
        exact hfold
      refine ⟨⟨dedupFirst ((containingDocs t docs).map fun d => d.id),
          ((docs.map fun d => (docTokens d).count t).sum),
          mkIdf ops docs.length
            (dedupFirst ((containingDocs t docs).map fun d => d.id)).length⟩,
        ?_, ?_⟩
      · show ((docs.foldl processDoc
            (⟨fun _ => none, [], [], 0⟩ : BuildSt K)).inv t).map _ = _
        rw [hstinv]
        rfl
      · show (if pr.2.termFrequency t = 0 then 0
            else ((pr.2.termFrequency t : ℕ) : K) / ((pr.2.length : ℕ) : K)
              * (match (docs.foldl processDoc
                  (⟨fun _ => none, [], [], 0⟩ : BuildSt K)).inv t with
                | some p => mkIdf ops docs.length p.1.length
                | none => 0)) = _
        rw [hstinv, if_neg (Nat.pos_iff_ne_zero.mp htf)]

/-- C4 counterexample to the claim over arbitrary corpora: two distinct
files (`a-b.md`, `a_b.md`) map to the same id `a_b`; both documents
contain `python`, so 2 documents contain the term, but the stored IDF is
`log(2 / (1 + 1))` — computed from the 1-element id set — and with the
real logarithm `log(2/2) = 0 ≠ log(2/3)`, the claimed
`ln(N / (1 + df))` with `df` the document count. -/
theorem c4_idf_counterexample :
    ((buildKnowledgeBaseIndex realLogOps [exIdfDocA, exIdfDocB] 0).invertedIndex
        "python").map (fun e => e.idf)
      = some (mkIdf realLogOps 2 1)
    ∧ (containingDocs "python" [exIdfDocA, exIdfDocB]).length = 2
    ∧ mkIdf realLogOps 2 1 ≠ mkIdf realLogOps 2 2 := by
  refine ⟨rfl, rfl, ?_⟩
  intro h
  have h' : Real.log (((2 : ℕ) : ℝ) / (1 + ((1 : ℕ) : ℝ)))
      = Real.log (((2 : ℕ) : ℝ) / (1 + ((2 : ℕ) : ℝ))) := h
  rw [show ((2 : ℕ) : ℝ) / (1 + ((1 : ℕ) : ℝ)) = 1 by norm_num,
    Real.log_one] at h'
  have h2 : Real.log (((2 : ℕ) : ℝ) / (1 + ((2 : ℕ) : ℝ))) < 0 := by
    apply Real.log_neg <;> norm_num
  rw [← h'] at h2
  exact lt_irrefl 0 h2

/-- C4 amended, witness: on the three-document corpus, the stored IDF of
`alpha` matches `log(N / (1 + df))` with `df = 3` containing documents. -/
theorem c4_idf_and_tfidf_witness :
    exCorpus ≠ []
    ∧ (exCorpus.map fun d => d.id).Nodup
    ∧ ((buildKnowledgeBaseIndex zeroOps exCorpus 0).invertedIndex "alpha").map
        (fun e => e.idf)
      = some (zeroOps.log ((exCorpus.length : ℚ)
          / (1 + ((containingDocs "alpha" exCorpus).length : ℚ)))) := by
  refine ⟨by decide, by decide, ?_⟩
  cases hinv : (buildKnowledgeBaseIndex zeroOps exCorpus 0).invertedIndex
      "alpha" with
  | none =>
    have hs : ((buildKnowledgeBaseIndex zeroOps exCorpus 0).invertedIndex
        "alpha").isSome = true := by decide
    rw [hinv] at hs
    simp at hs
  | some e =>
    show some e.idf = _
    rw [(c4_idf_and_tfidf zeroOps exCorpus 0 (by decide) (by decide)).1
      "alpha" e hinv]

/-! Claim C5: only documents reachable through the inverted index from a
query term can be returned. -/

lemma mem_candidateDocIds {K : Type} {idx : KnowledgeBaseIndex K}
    {terms : List String} {docId : String}
    (h : docId ∈ candidateDocIds idx terms) :
    ∃ t ∈ terms, ∃ e, idx.invertedIndex t = some e ∧ docId ∈ e.documents := by
  unfold candidateDocIds at h
  suffices haux : ∀ (l : List String) (acc : List String),
      docId ∈ l.foldl (fun acc term =>
        match idx.invertedIndex term with
        | some e => e.documents.foldl jsSetAdd acc
        | none => acc) acc →
      docId ∈ acc ∨ ∃ t ∈ l, ∃ e, idx.invertedIndex t = some e
        ∧ docId ∈ e.documents by
    rcases haux terms [] h with h1 | h1
    · simp at h1
    · exact h1
  intro l
  induction l with
  | nil => intro acc h0; exact Or.inl h0
  | cons term rest ih =>
    intro acc h0
    rw [List.foldl_cons] at h0
    rcases ih _ h0 with h1 | h1
    · cases he : idx.invertedIndex term with
      | none =>
        rw [he] at h1
        exact Or.inl h1
      | some e =>
        rw [he] at h1
        rcases mem_foldl_jsSetAdd.1 h1 with h2 | h2
        · exact Or.inl h2
        · exact Or.inr ⟨term, List.mem_cons_self _ _, e, he, h2⟩
    · obtain ⟨t, ht, he⟩ := h1
      exact Or.inr ⟨t, List.mem_cons_of_mem _ ht, he⟩

lemma mem_searchScored_decompose {K : Type} [LinearOrderedField K]
    [FloorRing K] {ops : RealOps K} {idx : KnowledgeBaseIndex K}
    {query : String} {r : SearchResult K}
    (h : r ∈ searchScored ops idx query) :
    ∃ docId ∈ candidateDocIds idx
        (expandQueryForSmallKb (tokenizeAndNormalize query) idx),
      ∃ entry, idx.documentIndex.lookup docId = some entry
        ∧ r.document = entry.document := by
  simp only [searchScored] at h
  split at h
  · simp at h
  · unfold scoredCandidates at h
    obtain ⟨docId, hdocId, hf⟩ := List.mem_filterMap.1 h
    obtain ⟨entry, hentry, hif⟩ := Option.bind_eq_some.1 hf
    dsimp only at hif
    split at hif
    · obtain rfl : (⟨entry.document, _⟩ : SearchResult K) = r :=
        Option.some_inj.1 hif
      exact ⟨docId, hdocId, entry, hentry, rfl⟩
    · exact absurd hif (by simp)

/-- C5 amended: over a corpus whose document ids are pairwise distinct,
a document containing none of the query's terms — original or added by
expansion — never appears in the result list of the indexed search.
(With colliding ids the guarantee fails, see the counterexample.) -/
theorem c5_no_unrelated_document {K : Type} [LinearOrderedField K]
    [FloorRing K] (ops : RealOps K) (docs : List (KnowledgeDocument K))
    (now : ℕ) (query : String) (maxResults : ℤ) (d : KnowledgeDocument K)
    (hnd : (docs.map fun d => d.id).Nodup) (hd : d ∈ docs)
    (hnone : ∀ t ∈ expandQueryForSmallKb (tokenizeAndNormalize query)
        (buildKnowledgeBaseIndex ops docs now), t ∉ docTokens d) :
    ∀ r ∈ searchDocumentsIndexed ops (buildKnowledgeBaseIndex ops docs now)
        query maxResults, r.document ≠ d := by
  intro r hr hrd
  obtain ⟨docId, hcand, entry, hlook, hdoceq⟩ :=
    mem_searchScored_decompose (mem_output_mem_searchScored hr)
  obtain ⟨t, hterm, e, hinv, hdocmem⟩ := mem_candidateDocIds hcand
  by_cases hcon : containingDocs t docs = []
  · rw [inv_of_build_none ops docs now t hcon] at hinv
    exact absurd hinv (by simp)
  · rw [inv_of_build_some ops docs now t hcon] at hinv
    obtain rfl := (Option.some_inj.1 hinv).symm
    have hdocmem2 : docId ∈ (containingDocs t docs).map fun d => d.id := by
      rw [← mem_dedupFirst]
      exact hdocmem
    obtain ⟨d1, hd1, hd1id⟩ := List.mem_map.1 hdocmem2
    have hd1docs : d1 ∈ docs ∧ t ∈ docTokens d1 := by
      have := List.mem_filter.1 hd1
      exact ⟨this.1, by simpa using this.2⟩
    have hlm := lookup_mem hlook
    obtain ⟨d2, hd2, hid2, hdoc2, -, -⟩ := docIndex_mem hlm
    have hd12 : d2 = d1 :=
      List.inj_on_of_nodup_map hnd hd2 hd1docs.1 (by rw [← hid2, hd1id])
    have : t ∈ docTokens d := by
      rw [← hrd, hdoceq, hdoc2, hd12]
      exact hd1docs.2
    exact hnone t hterm this

set_option maxRecDepth 1000000 in
unseal Rat.add Rat.mul Rat.inv Rat.sub List.merge List.mergeSort in
/-- C5 counterexample over corpora with colliding ids: the files
`a-b.md` and `a_b.md` both map to id `a_b`; the first contains the query
term `python`, the second none of the (unexpanded) query's terms, yet the
second is exactly what the search returns, because the index entry for
the shared id was overwritten by the second document. -/
theorem c5_no_unrelated_document_counterexample :
    ((searchDocumentsIndexed zeroOps exCollIdx "python" 5).map
        fun r => r.document) = [exCollB]
    ∧ ((expandQueryForSmallKb (tokenizeAndNormalize "python") exCollIdx).all
        fun t => !((docTokens exCollB).contains t)) = true
    ∧ exCollB ∈ [exCollA, exCollB]
    ∧ exCollB.id = exCollA.id := by
  refine ⟨by decide, by decide, by decide, by decide⟩

set_option maxRecDepth 1000000 in
unseal Rat.add Rat.mul Rat.inv Rat.sub List.merge List.mergeSort in
/-- C5 amended, witness: on the distinct-id corpus, the document `exDocB`
(which contains no term of the query `delta`) is not the document of the
single returned result. -/
theorem c5_no_unrelated_document_witness :
    (exCorpus.map fun d => d.id).Nodup
    ∧ exDocB ∈ exCorpus
    ∧ ((expandQueryForSmallKb (tokenizeAndNormalize "delta")
          (buildKnowledgeBaseIndex zeroOps exCorpus 0)).all
        fun t => !((docTokens exDocB).contains t)) = true
    ∧ (⟨exDocA, 6⟩ : SearchResult ℚ) ∈ searchDocumentsIndexed zeroOps
        (buildKnowledgeBaseIndex zeroOps exCorpus 0) "delta" 5
    ∧ (⟨exDocA, 6⟩ : SearchResult ℚ).document ≠ exDocB :=
  ⟨by decide, by decide, by decide, by decide,
   c5_no_unrelated_document zeroOps exCorpus 0 "delta" 5 exDocB (by decide)
     (by decide)
     (fun t ht => by
       have hall := of_decide_eq_true (by decide :
         decide (((expandQueryForSmallKb (tokenizeAndNormalize "delta")
             (buildKnowledgeBaseIndex zeroOps exCorpus 0)).all
           fun t => !((docTokens exDocB).contains t)) = true) = true)
       have := List.all_eq_true.1 hall t ht
       simpa using this)
     _ (by decide)⟩

/-! Claim C8: effect of an exact query match in the title. -/

/-- C8 amended: between two candidate entries whose scoring inputs agree
on everything except that the first's lowercased title contains the full
lowercased query and the second's does not (in particular the two titles
produce the same two-word-phrase and temporal title contributions and
the same intent contribution, and every indexed statistic is equal), the
raw score of the first exceeds the second's by exactly the 120-point
exact-title factor; the normalized scores are then ordered `≤`, but not
necessarily strictly (they saturate at the 100 cap, see the
counterexample). -/
theorem c8_exact_title_amended {K : Type} [LinearOrderedField K]
    [FloorRing K] (ops : RealOps K) (vocabulary : List String)
    (query : String) (queryWords expandedQuery : List String)
    (hasTemporalQuery : Bool) (e1 e2 : DocEntry K)
    (h1 : strIncludes (strToLower e1.document.title) (strToLower query) = true)
    (h2 : strIncludes (strToLower e2.document.title) (strToLower query) = false)
    (hcont : e1.document.content = e2.document.content)
    (htags : e1.document.tags = e2.document.tags)
    (hsrc : e1.document.source = e2.document.source)
    (hrel : e1.document.relevance = e2.document.relevance)
    (htv : e1.tfidfVector = e2.tfidfVector)
    (htop : e1.topics = e2.topics)
    (hemb : e1.embeddings = e2.embeddings)
    (hph : phraseTitleFactor (K := K) queryWords (strToLower e1.document.title)
      = phraseTitleFactor queryWords (strToLower e2.document.title))
    (htmp : temporalTitleScore (K := K) (strToLower e1.document.title)
      = temporalTitleScore (strToLower e2.document.title))
    (hint : analyzeQueryIntent (K := K) queryWords e1.document
      = analyzeQueryIntent queryWords e2.document) :
    scoreEntry ops vocabulary query queryWords expandedQuery hasTemporalQuery e1
      = scoreEntry ops vocabulary query queryWords expandedQuery
          hasTemporalQuery e2 + 120
    ∧ normalizedScore (scoreEntry ops vocabulary query queryWords expandedQuery
          hasTemporalQuery e2)
      ≤ normalizedScore (scoreEntry ops vocabulary query queryWords
          expandedQuery hasTemporalQuery e1) := by
  have htfidf : tfidfFactor expandedQuery e1 = tfidfFactor expandedQuery e2 := by
    unfold tfidfFactor
    rw [htv]
  have htempf : temporalFactor (K := K) hasTemporalQuery
      (strToLower e1.document.title) (strToLower e2.document.content)
      = temporalFactor hasTemporalQuery (strToLower e2.document.title)
        (strToLower e2.document.content) := by
    unfold temporalFactor
    rw [htmp]
  have hmain : scoreEntry ops vocabulary query queryWords expandedQuery
      hasTemporalQuery e1
      = scoreEntry ops vocabulary query queryWords expandedQuery
          hasTemporalQuery e2 + 120 := by
    unfold scoreEntry
    dsimp only
    rw [hcont, htags, hsrc, hrel, htop, hemb, hph, hint, htfidf, htempf]
    simp only [exactTitleFactor, h1, h2, Bool.false_eq_true, if_true, if_false]
    ring
  refine ⟨hmain, ?_⟩
  unfold normalizedScore
  have hle : scoreEntry ops vocabulary query queryWords expandedQuery
      hasTemporalQuery e2
      ≤ scoreEntry ops vocabulary query queryWords expandedQuery
          hasTemporalQuery e1 := by
    rw [hmain]
    linarith
  have hdiv : scoreEntry ops vocabulary query queryWords expandedQuery
        hasTemporalQuery e2 / 2000 * 100
      ≤ scoreEntry ops vocabulary query queryWords expandedQuery
          hasTemporalQuery e1 / 2000 * 100 := by
    linarith
  exact min_le_min (round_mono_of_le hdiv) (le_refl _)

set_option maxRecDepth 1000000 in
unseal Rat.add Rat.mul Rat.inv Rat.sub List.merge List.mergeSort in
/-- C8 amended, witness: two entries identical but for the title, the
first containing the query `zebras`; its raw score is the second's plus
120. -/
theorem c8_exact_title_amended_witness :
    strIncludes (strToLower exEntryPlus.document.title) (strToLower "zebras")
      = true
    ∧ strIncludes (strToLower exEntryMinus.document.title)
        (strToLower "zebras") = false
    ∧ scoreEntry zeroOps [] "zebras" ["zebras"] ["zebras"] false exEntryPlus
      = scoreEntry zeroOps [] "zebras" ["zebras"] ["zebras"] false exEntryMinus
        + 120
    ∧ normalizedScore (scoreEntry zeroOps [] "zebras" ["zebras"] ["zebras"]
        false exEntryMinus)
      ≤ normalizedScore (scoreEntry zeroOps [] "zebras" ["zebras"] ["zebras"]
          false exEntryPlus) :=
  have h := c8_exact_title_amended zeroOps [] "zebras" ["zebras"] ["zebras"]
    false exEntryPlus exEntryMinus (by decide) (by decide) rfl rfl rfl rfl
    rfl rfl rfl (by decide) (by decide) (by decide)
  ⟨by decide, by decide, h.1, h.2⟩

set_option maxRecDepth 1000000 in
unseal Rat.add Rat.mul Rat.inv Rat.sub List.merge List.mergeSort in
/-- C8 counterexample to strictness: two documents identical but for the
title (the first's title contains the whole query, the second's does
not) whose shared content drives the raw score beyond the normalization
cap; both normalized scores are exactly 100, so the title match does
not yield a strictly greater returned score.  (Under the `zeroOps`
interpretation the TF-IDF and similarity factors contribute 0; with any
other interpretation, including the real logarithm, those factors are
never negative, so both scores stay at the cap.) -/
theorem c8_exact_title_counterexample :
    strIncludes (strToLower exClampPlus.title) (strToLower "aaa bbb ccc ddd")
      = true
    ∧ strIncludes (strToLower exClampMinus.title) (strToLower "aaa bbb ccc ddd")
      = false
    ∧ exClampPlus.content = exClampMinus.content
    ∧ exClampPlus.tags = exClampMinus.tags
    ∧ exClampPlus.source = exClampMinus.source
    ∧ exClampPlus.relevance = exClampMinus.relevance
    ∧ exClampPlus.id = exClampMinus.id
    ∧ (searchDocumentsIndexed zeroOps exClampIdxP "aaa bbb ccc ddd" 5).map
        (fun r => r.searchScore) = [100]
    ∧ (searchDocumentsIndexed zeroOps exClampIdxM "aaa bbb ccc ddd" 5).map
        (fun r => r.searchScore) = [100]
    ∧ ¬ ((100 : ℤ) > 100) := by
  refine ⟨by decide, by decide, by decide, by decide, by decide, by decide,
    by decide, by decide, by decide, by decide⟩

end KB
